import Mathlib

/-!
Verification of the Green Agent deterministic evaluation harness
(`src/backend/green_agent/`) against its natural-language specification.

This file shallow-embeds the Python code that the claims are about:

* `Value` models the JSON-like Python values flowing through the harness
  (`None`, numbers, strings, lists, dicts).  Python `int`/`float` numbers are
  modelled as exact rationals (`ℚ`); Python dicts as association lists in
  insertion order (keys unique where the code relies on it).
* `PlanNormalizer` (validation/normalizer.py): the regex substitutions of
  `normalize_string` and the format dispatch of `normalize_date` are embedded
  as character-list functions implementing exactly the semantics of the
  concrete patterns used by the source (leftmost, non-overlapping, greedy
  matching; the three character classes of each pattern are pairwise disjoint,
  so greedy matching without backtracking is the exact `re` behaviour).
  The wall-clock year `datetime.now().year` is a parameter `yr`; its decimal
  rendering `str(year)` is embedded as `natDigits`.
* `TraceLedgerManager`, `GreenAgentController` (execution/trace_ledger.py,
  infrastructure/controller.py): explicit state passing; `uuid.uuid4()` and
  `datetime.now()` are parameters of the transition functions.
* SHA-256 is implemented in full (over `Nat` words reduced mod `2 ^ 32`),
  together with the canonical serialization `json.dumps(v, sort_keys=True)`
  used by `record_tool_call`.
* `ToolRegistry`, `PlanValidator`, `ToolRunner`, `GroundingValidator`,
  `NDCGScorer`, `Isolator` are embedded function-by-function from the source;
  `math.log2` (a float computation) is abstracted as a function parameter
  `log2` since the ranking claims hold for every discount function.

Theorems named `C1_…` … `C10_…` settle the frozen claims.
-/

namespace GreenAgent

/-- JSON-like Python value: `None`, `int`/`float` (as an exact rational),
`str`, `list`, `dict` (association list in insertion order). -/
inductive Value where
  | null : Value
  | num (q : ℚ) : Value
  | str (s : String) : Value
  | list (items : List Value) : Value
  | dict (entries : List (String × Value)) : Value

mutual

/-- Structural equality on values (Python `==` on the embedded subset). -/
def Value.beq : Value → Value → Bool
  | .null, .null => true
  | .num a, .num b => a == b
  | .str a, .str b => a == b
  | .list a, .list b => Value.beqList a b
  | .dict a, .dict b => Value.beqEntries a b
  | _, _ => false

def Value.beqList : List Value → List Value → Bool
  | [], [] => true
  | a :: as, b :: bs => Value.beq a b && Value.beqList as bs
  | _, _ => false

def Value.beqEntries : List (String × Value) → List (String × Value) → Bool
  | [], [] => true
  | (k, v) :: as, (k2, v2) :: bs => k == k2 && Value.beq v v2 && Value.beqEntries as bs
  | _, _ => false

end

/-- Python truthiness on the embedded subset: `None`, `0`, `""`, `[]`, `{}`
are falsy, everything else truthy. -/
def Value.truthy : Value → Bool
  | .null => false
  | .num q => q != 0
  | .str s => s != ""
  | .list [] => false
  | .list (_ :: _) => true
  | .dict [] => false
  | .dict (_ :: _) => true

/-- `d.get(key)` on a dict: first entry with the key, else `None`
(Python dict keys are unique, so first = only). -/
def dictGet (entries : List (String × Value)) (key : String) : Value :=
  match entries.find? (fun kv => kv.1 == key) with
  | some kv => kv.2
  | none => .null

/-- `key in d` on a dict. -/
def dictHas (entries : List (String × Value)) (key : String) : Bool :=
  entries.any (fun kv => kv.1 == key)

/-! ### Python string primitives -/

/-- The whitespace recognised by `str.strip()` / regex `\s` (ASCII part). -/
def isSpaceChar (c : Char) : Bool :=
  c == ' ' || c == '\t' || c == '\n' || c == '\r' || c == '\x0b' || c == '\x0c'

/-- ASCII decimal digit (regex `\d`). -/
def isDigitChar (c : Char) : Bool :=
  '0' ≤ c && c ≤ '9'

/-- ASCII lowercase letter (regex `[a-z]`). -/
def isLowerAlpha (c : Char) : Bool :=
  'a' ≤ c && c ≤ 'z'

/-- Drop leading whitespace. -/
def dropSpaces (l : List Char) : List Char :=
  l.dropWhile isSpaceChar

/-- `str.strip()`: drop whitespace at both ends. -/
def stripChars (l : List Char) : List Char :=
  (dropSpaces ((dropSpaces l).reverse)).reverse

/-- `str.strip()` on a `String`. -/
def pyStrip (s : String) : String :=
  ⟨stripChars s.data⟩

/-- `str.lower()` (ASCII). -/
def asciiLower (s : String) : String :=
  ⟨s.data.map (fun c => if 'A' ≤ c && c ≤ 'Z' then Char.ofNat (c.toNat + 32) else c)⟩

/-- Digit-accumulating loop of the decimal rendering; the budget `fuel`
bounds the number of divisions by ten, so `n + 1` always suffices. -/
def natDigitsGo : Nat → Nat → List Char → List Char
  | 0, _, acc => acc
  | fuel + 1, n, acc =>
    let d := Char.ofNat (n % 10 + '0'.toNat)
    if n < 10 then d :: acc
    else natDigitsGo fuel (n / 10) (d :: acc)

/-- Decimal rendering of a natural number, embedding Python `str(n)` for the
non-negative integers the source renders (e.g. `datetime.now().year`). -/
def natDigits (n : Nat) : String :=
  ⟨natDigitsGo (n + 1) n []⟩

/-- `str.zfill(2)` for the argument shapes the normalizer produces
(sign-aware, like Python). -/
def zfill2 (l : List Char) : List Char :=
  match l with
  | [] => ['0', '0']
  | [c] => if c == '+' || c == '-' then [c, '0'] else ['0', c]
  | _ => l

/-! ### PlanNormalizer (validation/normalizer.py)

`normalize_string` applies, in source order: `strip()`, the arrow
substitution `re.sub(r'[→⇒]', '>', s)`, the markdown-link substitution
`re.sub(r'\[([^\]]+)\]\([^\)]+\)', r'\1', s)` and the emphasis substitution
`re.sub(r'[*_]{1,2}([^*_]+)[*_]{1,2}', r'\1', s)`.  Each pattern's character
classes are pairwise disjoint, so Python's leftmost, greedy, non-overlapping
`re.sub` semantics reduce to the deterministic scans below. -/

/-- `re.sub(r'[→⇒]', '>', s)`. -/
def subArrows (l : List Char) : List Char :=
  l.map (fun c => if c == '→' || c == '⇒' then '>' else c)

/-- A match of `\[([^\]]+)\]\([^\)]+\)` at the current position: returns the
captured link text and the remainder after the match. -/
def linkMatch (rest : List Char) : Option (List Char × List Char) :=
  match rest.dropWhile (fun c => c != ']') with
  | ']' :: '(' :: r2 =>
    let t1 := rest.takeWhile (fun c => c != ']')
    if t1.isEmpty then none
    else
      match r2.dropWhile (fun c => c != ')') with
      | ')' :: r4 =>
        if (r2.takeWhile (fun c => c != ')')).isEmpty then none else some (t1, r4)
      | _ => none
  | _ => none

/-- The left-to-right scan of `re.sub(r'\[([^\]]+)\]\([^\)]+\)', r'\1', s)`,
with an explicit recursion budget.  Every step consumes at least one input
character, so a budget of `cs.length` always suffices; on an exhausted budget
the remainder is returned unchanged (never reached from `subLinks`). -/
def subLinksGo : Nat → List Char → List Char
  | _, [] => []
  | 0, cs => cs
  | fuel + 1, c :: rest =>
    if c = '[' then
      match linkMatch rest with
      | some (t1, r4) => t1 ++ subLinksGo fuel r4
      | none => c :: subLinksGo fuel rest
    else c :: subLinksGo fuel rest

/-- `re.sub(r'\[([^\]]+)\]\([^\)]+\)', r'\1', s)`: scan left to right,
replacing each non-overlapping match by its captured text. -/
def subLinks (cs : List Char) : List Char :=
  subLinksGo cs.length cs

/-- Emphasis marker class `[*_]`. -/
def isMark (c : Char) : Bool :=
  c == '*' || c == '_'

/-- The `([^*_]+)[*_]{1,2}` tail of the emphasis pattern, after the opening
markers: returns the captured text and the remainder after the closing
markers (greedy: two markers consumed when two are present). -/
def boldInner (r : List Char) : Option (List Char × List Char) :=
  match r.dropWhile (fun c => !isMark c) with
  | c1 :: c2 :: rest2 =>
    let t := r.takeWhile (fun c => !isMark c)
    if t.isEmpty then none
    else if isMark c1 && isMark c2 then some (t, rest2)
    else if isMark c1 then some (t, c2 :: rest2)
    else none
  | [c1] =>
    let t := r.takeWhile (fun c => !isMark c)
    if t.isEmpty then none
    else if isMark c1 then some (t, []) else none
  | [] => none

/-- A match of `[*_]{1,2}([^*_]+)[*_]{1,2}` at the current position.  The
opening `{1,2}` is greedy; when two markers open and the inner part then
fails, retrying with one opening marker always fails too (the inner class
excludes markers), so no further backtracking exists. -/
def boldMatch (cs : List Char) : Option (List Char × List Char) :=
  match cs with
  | a :: b :: r =>
    if isMark a then
      if isMark b then boldInner r
      else boldInner (b :: r)
    else none
  | _ => none

/-- The left-to-right scan of `re.sub(r'[*_]{1,2}([^*_]+)[*_]{1,2}', r'\1', s)`
with an explicit recursion budget (every step consumes at least one input
character, so `cs.length` fuel always suffices). -/
def subBoldGo : Nat → List Char → List Char
  | _, [] => []
  | 0, cs => cs
  | fuel + 1, c :: rest =>
    match boldMatch (c :: rest) with
    | some (t, r) => t ++ subBoldGo fuel r
    | none => c :: subBoldGo fuel rest

/-- `re.sub(r'[*_]{1,2}([^*_]+)[*_]{1,2}', r'\1', s)`. -/
def subBold (cs : List Char) : List Char :=
  subBoldGo cs.length cs

/-- `PlanNormalizer.normalize_string`: trim, arrows to ASCII, strip markdown
links, strip emphasis markers. -/
def normalize_string (s : String) : String :=
  ⟨subBold (subLinks (subArrows (stripChars s.data)))⟩

/-- `re.match(r'^\d{4}-\d{2}-\d{2}$', s)`. -/
def isYMD (cs : List Char) : Bool :=
  match cs with
  | [a, b, c, d, e, f, g, h, i, j] =>
    isDigitChar a && isDigitChar b && isDigitChar c && isDigitChar d && e == '-' &&
    isDigitChar f && isDigitChar g && h == '-' && isDigitChar i && isDigitChar j
  | _ => false

/-- `re.match(r'([a-z]+)\s+(\d+)', s)` on the lowered string: the three
classes are disjoint, so greedy matching is exact.  Returns the two captured
groups. -/
def matchMonthDay (cs : List Char) : Option (List Char × List Char) :=
  let m := cs.takeWhile isLowerAlpha
  if m.isEmpty then none
  else
    let r1 := cs.dropWhile isLowerAlpha
    if (r1.takeWhile isSpaceChar).isEmpty then none
    else
      let r2 := r1.dropWhile isSpaceChar
      let d := r2.takeWhile isDigitChar
      if d.isEmpty then none else some (m, d)

/-- `month_names.get(month_name[:3])` from `normalize_date`: the lookup into
the twelve-key month dictionary. -/
def monthTable : List (List Char × String) :=
  [(['j', 'a', 'n'], "01"), (['f', 'e', 'b'], "02"), (['m', 'a', 'r'], "03"),
   (['a', 'p', 'r'], "04"), (['m', 'a', 'y'], "05"), (['j', 'u', 'n'], "06"),
   (['j', 'u', 'l'], "07"), (['a', 'u', 'g'], "08"), (['s', 'e', 'p'], "09"),
   (['o', 'c', 't'], "10"), (['n', 'o', 'v'], "11"), (['d', 'e', 'c'], "12")]

def monthNum (m : List Char) : Option String :=
  match monthTable.find? (fun kv => kv.1 == m) with
  | some kv => some kv.2
  | none => none

/-- The month-name branch of `normalize_date` (the code reached when no
slash-format match fired): on a `"Mon D"`-shaped string, rebuild as
`f"{year}-{month}-{day.zfill(2)}"`, else return the stripped input. -/
def monthBranch (yr : Nat) (t : String) : String :=
  match matchMonthDay (asciiLower t).data with
  | some (m, d) =>
    match monthNum (m.take 3) with
    | some mm => natDigits yr ++ "-" ++ mm ++ "-" ++ (⟨zfill2 d⟩ : String)
    | none => t
  | none => t

/-- Python `s.split(sep)` for a one-character separator. -/
def splitOnChar (sep : Char) : List Char → List (List Char)
  | [] => [[]]
  | c :: rest =>
    if c == sep then [] :: splitOnChar sep rest
    else
      match splitOnChar sep rest with
      | x :: xs => (c :: x) :: xs
      | [] => [[c]]

/-- `PlanNormalizer.normalize_date`.  `yr` is `datetime.now().year`. -/
def normalize_date (yr : Nat) (s : String) : String :=
  let t := pyStrip s
  if isYMD t.data then t
  else if t.data.contains '/' then
    match splitOnChar '/' t.data with
    | [mo, d, y] => (⟨y⟩ : String) ++ "-" ++ (⟨zfill2 mo⟩ : String) ++ "-" ++ (⟨zfill2 d⟩ : String)
    | _ => monthBranch yr t
  else monthBranch yr t

mutual

/-- `PlanNormalizer.normalize_value`: date normalization first for strings
(falling back to string normalization when the date pass is a no-op),
recursion into dict values and list items, identity otherwise. -/
def normalize_value (yr : Nat) : Value → Value
  | .str s =>
    let normalized := normalize_date yr s
    if normalized != s then .str normalized
    else .str (normalize_string s)
  | .dict entries => .dict (normalizeEntries yr entries)
  | .list items => .list (normalizeList yr items)
  | .null => .null
  | .num q => .num q

/-- Pointwise `normalize_value` over list items. -/
def normalizeList (yr : Nat) : List Value → List Value
  | [] => []
  | v :: vs => normalize_value yr v :: normalizeList yr vs

/-- `normalize_value` over dict entries (keys untouched; the dict
comprehension in the source normalizes values only). -/
def normalizeEntries (yr : Nat) : List (String × Value) → List (String × Value)
  | [] => []
  | (k, v) :: rest => (k, normalize_value yr v) :: normalizeEntries yr rest

end

/-! ### Fixed points of the normalizer

The characters that can trigger a non-trivial rewrite in `normalize_string`
or `normalize_date`: emphasis markers, link opener, unicode arrows, and the
slash of the `MM/DD/YYYY` branch. -/

/-- No normalizer-trigger character. -/
def okChar (c : Char) : Bool :=
  !(c == '*' || c == '_' || c == '[' || c == '→' || c == '⇒' || c == '/')

/-- All characters of the string are trigger-free. -/
def strOk (s : String) : Bool :=
  s.data.all okChar

mutual

/-- All strings appearing as values inside `v` are trigger-free
(dict keys are untouched by `normalize_value`, so they are unrestricted). -/
def valueOk : Value → Bool
  | .str s => strOk s
  | .dict entries => entriesOk entries
  | .list items => listOk items
  | .null => true
  | .num _ => true

/-- `valueOk` over list items. -/
def listOk : List Value → Bool
  | [] => true
  | v :: vs => valueOk v && listOk vs

/-- `valueOk` over dict entry values. -/
def entriesOk : List (String × Value) → Bool
  | [] => true
  | (_, v) :: rest => valueOk v && entriesOk rest

end

theorem takeWhile_all (p : Char → Bool) (l : List Char) :
    (l.takeWhile p).all p = true := by
  induction l with
  | nil => simp
  | cons a l ih =>
    by_cases h : p a <;> simp [List.takeWhile_cons, h, ih]

theorem dropSpaces_dropSpaces (l : List Char) :
    dropSpaces (dropSpaces l) = dropSpaces l := by
  induction l with
  | nil => simp [dropSpaces]
  | cons a l ih =>
    by_cases h : isSpaceChar a
    · simpa [dropSpaces, List.dropWhile_cons, h] using ih
    · simp [dropSpaces, List.dropWhile_cons, h]

/-- The head of a list, when present, is not a space. -/
def headNotSpace : List Char → Bool
  | [] => true
  | c :: _ => !isSpaceChar c

theorem headNotSpace_dropSpaces (l : List Char) :
    headNotSpace (dropSpaces l) = true := by
  induction l with
  | nil => simp [dropSpaces, headNotSpace]
  | cons a l ih =>
    by_cases h : isSpaceChar a
    · simpa [dropSpaces, List.dropWhile_cons, h] using ih
    · simp [dropSpaces, List.dropWhile_cons, headNotSpace, h]

theorem dropSpaces_eq_self {l : List Char} (h : headNotSpace l = true) :
    dropSpaces l = l := by
  cases l with
  | nil => simp [dropSpaces]
  | cons a l =>
    simp only [headNotSpace, Bool.not_eq_true'] at h
    simp [dropSpaces, List.dropWhile_cons, h]

theorem dropSpaces_suffix (l : List Char) :
    ∃ pre, l = pre ++ dropSpaces l :=
  ⟨l.takeWhile isSpaceChar, (List.takeWhile_append_dropWhile ..).symm⟩

theorem headNotSpace_of_front {x m : List Char} (hm : headNotSpace m = true)
    (hpre : ∃ suf, m = x ++ suf) : headNotSpace x = true := by
  obtain ⟨suf, hsuf⟩ := hpre
  cases x with
  | nil => simp [headNotSpace]
  | cons c t =>
    subst hsuf
    simpa [headNotSpace] using hm

theorem stripChars_idem (l : List Char) :
    stripChars (stripChars l) = stripChars l := by
  unfold stripChars
  set m := dropSpaces l with hm
  set x := (dropSpaces m.reverse).reverse with hx
  have hxpre : ∃ suf, m = x ++ suf := by
    obtain ⟨pre, hpre⟩ := dropSpaces_suffix m.reverse
    refine ⟨pre.reverse, ?_⟩
    have := congrArg List.reverse hpre
    simpa [hx] using this
  have hx1 : dropSpaces x = x :=
    dropSpaces_eq_self (headNotSpace_of_front (headNotSpace_dropSpaces l) hxpre)
  have hx2 : dropSpaces x.reverse = x.reverse := by
    have : x.reverse = dropSpaces m.reverse := by simp [hx]
    rw [this, dropSpaces_dropSpaces]
  rw [hx1, hx2, List.reverse_reverse]

theorem all_dropSpaces {p : Char → Bool} {l : List Char} (h : l.all p = true) :
    (dropSpaces l).all p = true := by
  obtain ⟨pre, hpre⟩ := dropSpaces_suffix l
  rw [hpre, List.all_append, Bool.and_eq_true] at h
  exact h.2

theorem stripChars_all {p : Char → Bool} {l : List Char} (h : l.all p = true) :
    (stripChars l).all p = true := by
  unfold stripChars
  rw [List.all_reverse]
  exact all_dropSpaces (by rw [List.all_reverse]; exact all_dropSpaces h)

theorem subArrows_id {l : List Char} (h : l.all okChar = true) :
    subArrows l = l := by
  induction l with
  | nil => simp [subArrows]
  | cons a l ih =>
    rw [List.all_cons, Bool.and_eq_true] at h
    have ha : (a == '→') = false ∧ (a == '⇒') = false := by
      have := h.1
      simp only [okChar, Bool.not_eq_true', Bool.or_eq_false_iff] at this
      exact ⟨this.1.1.2, this.1.2⟩
    simp only [subArrows, List.map_cons, ha.1, ha.2, Bool.or_self, if_neg Bool.false_ne_true]
    exact congrArg _ (by simpa [subArrows] using ih h.2)

theorem subLinksGo_id (fuel : Nat) :
    ∀ {l : List Char}, l.all okChar = true → subLinksGo fuel l = l := by
  induction fuel with
  | zero =>
    intro l h
    cases l <;> rfl
  | succ fuel ih =>
    intro l h
    cases l with
    | nil => rfl
    | cons a rest =>
      rw [List.all_cons, Bool.and_eq_true] at h
      have ha : a ≠ '[' := by
        have := h.1
        simp only [okChar, Bool.not_eq_true', Bool.or_eq_false_iff] at this
        exact fun hc => by
          subst hc
          simpa using this.1.1.1.2
      rw [subLinksGo, if_neg ha]
      exact congrArg _ (ih h.2)

theorem subLinks_id {l : List Char} (h : l.all okChar = true) :
    subLinks l = l :=
  subLinksGo_id l.length h

theorem boldMatch_none_of_notMark {a : Char} {rest : List Char} (ha : isMark a = false) :
    boldMatch (a :: rest) = none := by
  cases rest with
  | nil => rfl
  | cons b r => simp [boldMatch, ha]

theorem subBoldGo_id (fuel : Nat) :
    ∀ {l : List Char}, l.all okChar = true → subBoldGo fuel l = l := by
  induction fuel with
  | zero =>
    intro l h
    cases l <;> rfl
  | succ fuel ih =>
    intro l h
    cases l with
    | nil => rfl
    | cons a rest =>
      rw [List.all_cons, Bool.and_eq_true] at h
      have ha : isMark a = false := by
        have := h.1
        simp only [okChar, Bool.not_eq_true', Bool.or_eq_false_iff] at this
        simp [isMark, this.1.1.1.1.1, this.1.1.1.1.2]
      rw [subBoldGo, boldMatch_none_of_notMark ha]
      exact congrArg _ (ih h.2)

theorem subBold_id {l : List Char} (h : l.all okChar = true) :
    subBold l = l :=
  subBoldGo_id l.length h

theorem okChar_no_slash {l : List Char} (h : l.all okChar = true) :
    l.contains '/' = false := by
  induction l with
  | nil => rfl
  | cons a l ih =>
    rw [List.all_cons, Bool.and_eq_true] at h
    have ha : (a == '/') = false := by
      have := h.1
      simp only [okChar, Bool.not_eq_true', Bool.or_eq_false_iff] at this
      exact this.2
    have hl := ih h.2
    rw [List.contains_cons, Bool.or_eq_false_iff]
    refine ⟨?_, hl⟩
    cases hq : ('/' == a) with
    | false => rfl
    | true =>
      have hqe : '/' = a := by simpa using hq
      subst hqe
      simp at ha

/-- `normalize_string` is the identity on trigger-free, already-stripped
strings. -/
theorem normalize_string_id {s : String} (hok : strOk s = true)
    (hstrip : stripChars s.data = s.data) : normalize_string s = s := by
  unfold normalize_string
  rw [hstrip, subArrows_id hok, subLinks_id hok, subBold_id hok]

/-- Characters of the strings `normalize_date` synthesizes: digits and `-`. -/
def digitDash (c : Char) : Bool :=
  isDigitChar c || c == '-'

theorem digitChar_is_digit (m : Nat) (h : m < 10) :
    isDigitChar (Char.ofNat (m + 48)) = true := by
  interval_cases m <;> decide

theorem natDigitsGo_all {q : Char → Bool} (hq : ∀ m, m < 10 → q (Char.ofNat (m + 48)) = true) :
    ∀ (fuel n : Nat) (acc : List Char), acc.all q = true →
      (natDigitsGo fuel n acc).all q = true := by
  intro fuel
  induction fuel with
  | zero => intro n acc hacc; exact hacc
  | succ fuel ih =>
    intro n acc hacc
    rw [natDigitsGo]
    split
    · simpa [hacc] using hq (n % 10) (Nat.mod_lt _ (by omega))
    · exact ih (n / 10) _
        (by simpa [hacc] using hq (n % 10) (Nat.mod_lt _ (by omega)))

theorem natDigitsGo_head :
    ∀ (fuel n : Nat) (acc : List Char),
      ∃ m rest, m < 10 ∧ natDigitsGo (fuel + 1) n acc = Char.ofNat (m + 48) :: rest := by
  intro fuel
  induction fuel with
  | zero =>
    intro n acc
    rw [natDigitsGo]
    split
    · exact ⟨n % 10, acc, Nat.mod_lt _ (by omega), rfl⟩
    · exact ⟨n % 10, acc, Nat.mod_lt _ (by omega), rfl⟩
  | succ fuel ih =>
    intro n acc
    rw [natDigitsGo]
    split
    · exact ⟨n % 10, acc, Nat.mod_lt _ (by omega), rfl⟩
    · exact ih (n / 10) _

theorem natDigits_all_digit (n : Nat) : (natDigits n).data.all isDigitChar = true :=
  natDigitsGo_all (fun m hm => digitChar_is_digit m hm) (n + 1) n [] rfl

theorem beq_false_of_digit {c : Char} (hc : isDigitChar c = true) (x : Char)
    (hx : isDigitChar x = false) : (c == x) = false := by
  cases hq : (c == x) with
  | false => rfl
  | true =>
    have hce : c = x := by simpa using hq
    subst hce
    rw [hc] at hx
    cases hx

theorem digit_le_nine {c : Char} (hc : isDigitChar c = true) : c ≤ '9' := by
  have := hc
  simp only [isDigitChar, Bool.and_eq_true, decide_eq_true_eq] at this
  exact this.2

theorem digitDash_okChar {c : Char} (h : digitDash c = true) : okChar c = true := by
  rw [digitDash, Bool.or_eq_true] at h
  rcases h with h | h
  · simp only [okChar, Bool.or_eq_false_iff, Bool.not_eq_true']
    exact ⟨⟨⟨⟨⟨beq_false_of_digit h _ (by decide), beq_false_of_digit h _ (by decide)⟩,
      beq_false_of_digit h _ (by decide)⟩, beq_false_of_digit h _ (by decide)⟩,
      beq_false_of_digit h _ (by decide)⟩, beq_false_of_digit h _ (by decide)⟩
  · have hce : c = '-' := by simpa using h
    subst hce
    decide

theorem digitDash_not_space {c : Char} (h : digitDash c = true) : isSpaceChar c = false := by
  rw [digitDash, Bool.or_eq_true] at h
  rcases h with h | h
  · simp only [isSpaceChar, Bool.or_eq_false_iff]
    exact ⟨⟨⟨⟨⟨beq_false_of_digit h _ (by decide), beq_false_of_digit h _ (by decide)⟩,
      beq_false_of_digit h _ (by decide)⟩, beq_false_of_digit h _ (by decide)⟩,
      beq_false_of_digit h _ (by decide)⟩, beq_false_of_digit h _ (by decide)⟩
  · have hce : c = '-' := by simpa using h
    subst hce
    decide

theorem digitDash_not_lower {c : Char} (h : digitDash c = true) : isLowerAlpha c = false := by
  rw [digitDash, Bool.or_eq_true] at h
  rcases h with h | h
  · have h9 := digit_le_nine h
    simp only [isLowerAlpha, Bool.and_eq_false_iff]
    left
    simp only [decide_eq_false_iff_not]
    exact fun h2 => absurd (le_trans h2 h9) (by decide)
  · have hce : c = '-' := by simpa using h
    subst hce
    decide

theorem digitDash_not_upper {c : Char} (h : digitDash c = true) :
    ('A' ≤ c && c ≤ 'Z') = false := by
  rw [digitDash, Bool.or_eq_true] at h
  rcases h with h | h
  · have h9 := digit_le_nine h
    rw [Bool.and_eq_false_iff]
    left
    simp only [decide_eq_false_iff_not]
    exact fun h2 => absurd (le_trans h2 h9) (by decide)
  · have hce : c = '-' := by simpa using h
    subst hce
    decide

theorem zfill2_all {q : Char → Bool} (hq0 : q '0' = true) {l : List Char}
    (h : l.all q = true) : (zfill2 l).all q = true := by
  match l with
  | [] => simpa [zfill2] using hq0
  | [c] =>
    rw [List.all_cons] at h
    by_cases hc : (c == '+' || c == '-') = true <;>
      simp_all [zfill2]
  | a :: b :: t => simpa [zfill2] using h

theorem all_mono {p q : Char → Bool} (hpq : ∀ c, p c = true → q c = true) :
    ∀ {l : List Char}, l.all p = true → l.all q = true := by
  intro l h
  rw [List.all_eq_true] at h ⊢
  exact fun c hc => hpq c (h c hc)

theorem map_id_of_all {p : Char → Bool} {f : Char → Char}
    (hpf : ∀ c, p c = true → f c = c) :
    ∀ {l : List Char}, l.all p = true → l.map f = l := by
  intro l h
  induction l with
  | nil => rfl
  | cons a l ih =>
    rw [List.all_cons, Bool.and_eq_true] at h
    rw [List.map_cons, hpf a h.1, ih h.2]

theorem headNotSpace_of_all {l : List Char} (h : l.all (fun c => !isSpaceChar c) = true) :
    headNotSpace l = true := by
  cases l with
  | nil => rfl
  | cons a t =>
    rw [List.all_cons, Bool.and_eq_true] at h
    simpa [headNotSpace] using h.1

theorem stripChars_eq_self {l : List Char} (h : l.all (fun c => !isSpaceChar c) = true) :
    stripChars l = l := by
  unfold stripChars
  rw [dropSpaces_eq_self (headNotSpace_of_all h),
    dropSpaces_eq_self (headNotSpace_of_all (by rwa [List.all_reverse])),
    List.reverse_reverse]

theorem matchMonthDay_none_of_head {l : List Char}
    (h : headNotSpace l = true → True)
    (hhead : ∀ c t, l = c :: t → isLowerAlpha c = false) :
    matchMonthDay l = none := by
  cases l with
  | nil => rfl
  | cons a t =>
    have := hhead a t rfl
    simp [matchMonthDay, List.takeWhile_cons, this]

theorem matchMonthDay_digits {l m d : List Char} (h : matchMonthDay l = some (m, d)) :
    d.all isDigitChar = true := by
  unfold matchMonthDay at h
  dsimp only at h
  by_cases h1 : (l.takeWhile isLowerAlpha).isEmpty
  · rw [if_pos h1] at h
    exact absurd h (by simp)
  · rw [if_neg h1] at h
    by_cases h2 : ((l.dropWhile isLowerAlpha).takeWhile isSpaceChar).isEmpty
    · rw [if_pos h2] at h
      exact absurd h (by simp)
    · rw [if_neg h2] at h
      by_cases h3 : (((l.dropWhile isLowerAlpha).dropWhile isSpaceChar).takeWhile
          isDigitChar).isEmpty
      · rw [if_pos h3] at h
        exact absurd h (by simp)
      · rw [if_neg h3] at h
        injection h with h
        injection h with h1 h2
        subst h2
        exact takeWhile_all ..

theorem monthNum_all_digit {m : List Char} {mm : String} (h : monthNum m = some mm) :
    mm.data.all isDigitChar = true := by
  unfold monthNum at h
  split at h
  case _ kv heq =>
    injection h with h
    subst h
    have hmem : kv ∈ monthTable := List.mem_of_find?_eq_some heq
    have hall : ∀ kv2 ∈ monthTable, kv2.2.data.all isDigitChar = true := by decide
    exact hall kv hmem
  · exact Option.noConfusion h

/-- Strings made of digits and dashes are fixed by every stage of the
normalizer. -/
theorem normalize_fix_digitDash (yr : Nat) (u : String)
    (hdd : u.data.all digitDash = true)
    (hhead : ∀ c t, u.data = c :: t → isDigitChar c = true) :
    normalize_date yr u = u ∧ normalize_string u = u := by
  have hok : strOk u = true := all_mono (fun c => digitDash_okChar) hdd
  have hns : u.data.all (fun c => !isSpaceChar c) = true :=
    all_mono (fun c hc => by simp [digitDash_not_space hc]) hdd
  have hstrip : stripChars u.data = u.data := stripChars_eq_self hns
  have hpys : pyStrip u = u := by
    show (⟨stripChars u.data⟩ : String) = u
    rw [hstrip]
  have hlower : asciiLower u = u := by
    show (⟨u.data.map _⟩ : String) = u
    rw [map_id_of_all (fun c hc => by simp [digitDash_not_upper hc]) hdd]
  have hmm : matchMonthDay (asciiLower u).data = none := by
    rw [hlower]
    refine matchMonthDay_none_of_head (fun _ => trivial) (fun c t hct => ?_)
    have hc := hhead c t hct
    exact digitDash_not_lower (by simp [digitDash, hc])
  have hmb : monthBranch yr u = u := by
    simp [monthBranch, hmm]
  have hdate : normalize_date yr u = u := by
    unfold normalize_date
    dsimp only
    rw [hpys]
    by_cases hy : isYMD u.data = true
    · rw [if_pos hy]
    · rw [if_neg hy, okChar_no_slash hok, if_neg Bool.false_ne_true, hmb]
  exact ⟨hdate, normalize_string_id hok hstrip⟩

/-- On a trigger-free string, `normalize_value` reaches a fixed point in one
application. -/
theorem nv_str_fix (yr : Nat) (s : String) (hok : strOk s = true) :
    ∃ r : String, normalize_value yr (.str s) = .str r ∧
      normalize_value yr (.str r) = .str r := by
  have hteq : pyStrip s = (⟨stripChars s.data⟩ : String) := rfl
  set t : String := pyStrip s with ht
  have htdata : t.data = stripChars s.data := by rw [hteq]
  have htok : strOk t = true := by
    rw [strOk, htdata]
    exact stripChars_all hok
  have htstrip : stripChars t.data = t.data := by
    rw [htdata, stripChars_idem]
  have htpys : pyStrip t = t := by
    show (⟨stripChars t.data⟩ : String) = t
    rw [htstrip]
  have hslash : t.data.contains '/' = false := okChar_no_slash htok
  have hnst : normalize_string t = t := normalize_string_id htok htstrip
  -- fixed points of the `.str` branch of `normalize_value`
  have nvfix : ∀ w : String, normalize_date yr w = w → normalize_string w = w →
      normalize_value yr (.str w) = .str w := by
    intro w h1 h2
    rw [normalize_value, h1]
    simp [h2]
  have nvout : ∀ w : String, normalize_date yr s = w → normalize_string w = w →
      normalize_value yr (.str s) = .str w := by
    intro w h1 h2
    rw [normalize_value, h1]
    by_cases hws : w = s
    · subst hws
      simp [h2]
    · simp [bne_iff_ne, hws]
  by_cases hy : isYMD t.data = true
  · -- YYYY-MM-DD branch: `normalize_date` returns the stripped string
    have hds : normalize_date yr s = t := by
      unfold normalize_date
      dsimp only
      rw [← ht, if_pos hy]
    have hdt : normalize_date yr t = t := by
      unfold normalize_date
      dsimp only
      rw [htpys, if_pos hy]
    exact ⟨t, nvout t hds hnst, nvfix t hdt hnst⟩
  · have hds : normalize_date yr s = monthBranch yr t := by
      unfold normalize_date
      dsimp only
      rw [← ht, if_neg hy, hslash, if_neg Bool.false_ne_true]
    have hdt : normalize_date yr t = monthBranch yr t := by
      unfold normalize_date
      dsimp only
      rw [htpys, if_neg hy, hslash, if_neg Bool.false_ne_true]
    cases hmm : matchMonthDay (asciiLower t).data with
    | none =>
      have hmb : monthBranch yr t = t := by simp [monthBranch, hmm]
      rw [hmb] at hds hdt
      exact ⟨t, nvout t hds hnst, nvfix t hdt hnst⟩
    | some md =>
      obtain ⟨m, d0⟩ := md
      cases hmn : monthNum (m.take 3) with
      | none =>
        have hmb : monthBranch yr t = t := by simp [monthBranch, hmm, hmn]
        rw [hmb] at hds hdt
        exact ⟨t, nvout t hds hnst, nvfix t hdt hnst⟩
      | some mm =>
        set u : String := natDigits yr ++ "-" ++ mm ++ "-" ++ (⟨zfill2 d0⟩ : String) with hu
        have hmb : monthBranch yr t = u := by simp [monthBranch, hmm, hmn]
        rw [hmb] at hds hdt
        have hudata : u.data = (natDigits yr).data ++ ['-'] ++ mm.data ++ ['-'] ++ zfill2 d0 := by
          rw [hu]
          simp [String.data_append]
        have hdd : u.data.all digitDash = true := by
          rw [hudata]
          simp only [List.all_append, Bool.and_eq_true]
          refine ⟨⟨⟨⟨?_, by decide⟩, ?_⟩, by decide⟩, ?_⟩
          · exact all_mono (p := isDigitChar) (fun c hc => by simp [digitDash, hc])
              (natDigits_all_digit yr)
          · exact all_mono (p := isDigitChar) (fun c hc => by simp [digitDash, hc])
              (monthNum_all_digit hmn)
          · exact all_mono (p := isDigitChar) (fun c hc => by simp [digitDash, hc])
              (zfill2_all (by decide) (matchMonthDay_digits hmm))
        have hhead : ∀ c t2, u.data = c :: t2 → isDigitChar c = true := by
          intro c t2 hct
          obtain ⟨m0, rest, hm0, hrest⟩ := natDigitsGo_head yr yr []
          have : (natDigits yr).data = Char.ofNat (m0 + 48) :: rest := hrest
          rw [hudata, this] at hct
          simp only [List.cons_append, List.cons.injEq] at hct
          rw [← hct.1]
          exact digitChar_is_digit m0 hm0
        obtain ⟨hdu, hnsu⟩ := normalize_fix_digitDash yr u hdd hhead
        exact ⟨u, nvout u hds hnsu, nvfix u hdu hnsu⟩

mutual

theorem nv_idem (yr : Nat) : ∀ (v : Value), valueOk v = true →
    normalize_value yr (normalize_value yr v) = normalize_value yr v
  | .null, _ => by simp [normalize_value]
  | .num q, _ => by simp [normalize_value]
  | .str s, h => by
    obtain ⟨r, h1, h2⟩ := nv_str_fix yr s (by simpa [valueOk] using h)
    rw [h1, h2]
  | .list items, h => by
    simp only [normalize_value]
    rw [nvList_idem yr items (by simpa [valueOk] using h)]
  | .dict entries, h => by
    simp only [normalize_value]
    rw [nvEntries_idem yr entries (by simpa [valueOk] using h)]

theorem nvList_idem (yr : Nat) : ∀ (l : List Value), listOk l = true →
    normalizeList yr (normalizeList yr l) = normalizeList yr l
  | [], _ => by simp [normalizeList]
  | v :: vs, h => by
    have h2 : valueOk v = true ∧ listOk vs = true := by
      simpa [listOk, Bool.and_eq_true] using h
    simp only [normalizeList]
    rw [nv_idem yr v h2.1, nvList_idem yr vs h2.2]

theorem nvEntries_idem (yr : Nat) : ∀ (l : List (String × Value)), entriesOk l = true →
    normalizeEntries yr (normalizeEntries yr l) = normalizeEntries yr l
  | [], _ => by simp [normalizeEntries]
  | (k, v) :: rest, h => by
    have h2 : valueOk v = true ∧ entriesOk rest = true := by
      simpa [entriesOk, Bool.and_eq_true] using h
    simp only [normalizeEntries]
    rw [nv_idem yr v h2.1, nvEntries_idem yr rest h2.2]

end

/-- C7 counterexample: `normalize_value` is not idempotent on strings.  On
`" *a* "` the date pass strips the whitespace, so `normalize_value` returns
the changed string `"*a*"` without applying the markdown pass; the second
application then strips the emphasis markers, yielding `"a"`.
(The year argument plays no role; `2025` is used as a concrete instance.) -/
theorem C7_counterexample :
    normalize_value 2025 (normalize_value 2025 (.str " *a* ")) ≠
      normalize_value 2025 (.str " *a* ") := by
  have h1 : normalize_value 2025 (.str " *a* ") = .str "*a*" := by
    simp [normalize_value, normalize_date, normalize_string, pyStrip, stripChars, dropSpaces,
      isSpaceChar, isYMD, monthBranch, matchMonthDay, asciiLower, isLowerAlpha, subArrows,
      subLinks, subLinksGo, subBold, subBoldGo, boldMatch, boldInner, isMark, linkMatch, monthNum, monthTable,
      isDigitChar, zfill2, splitOnChar]
  have h2 : normalize_value 2025 (.str "*a*") = .str "a" := by
    simp [normalize_value, normalize_date, normalize_string, pyStrip, stripChars, dropSpaces,
      isSpaceChar, isYMD, monthBranch, matchMonthDay, asciiLower, isLowerAlpha, subArrows,
      subLinks, subLinksGo, subBold, subBoldGo, boldMatch, boldInner, isMark, linkMatch, monthNum, monthTable,
      isDigitChar, zfill2, splitOnChar]
  rw [h1, h2]
  simp

/-- C7 (amended): `normalize_value` is idempotent on every string, dict or
list value whose strings contain none of the normalizer's trigger characters
`*`, `_`, `[`, `→`, `⇒`, `/` (on such values each rewrite pass is the
identity or reaches a fixed point in one application). -/
theorem C7_normalize_value_idem (yr : Nat) (x : Value) (h : valueOk x = true) :
    normalize_value yr (normalize_value yr x) = normalize_value yr x :=
  nv_idem yr x h

/-- C7 witness: the amended idempotence applied at the concrete plan string
`"SFO to NYC"`. -/
theorem C7_normalize_value_idem_witness :
    valueOk (.str "SFO to NYC") = true ∧
      normalize_value 2025 (normalize_value 2025 (.str "SFO to NYC")) =
        normalize_value 2025 (.str "SFO to NYC") :=
  ⟨by simp [valueOk, strOk, okChar],
   C7_normalize_value_idem 2025 (.str "SFO to NYC") (by simp [valueOk, strOk, okChar])⟩

/-! ### SHA-256 (`hashlib.sha256`)

Full FIPS 180-4 SHA-256 over byte lists, with 32-bit words represented as
`Nat` reduced modulo `2 ^ 32`.  Used by `record_tool_call` to content-address
tool return values. -/

/-- Reduce to a 32-bit word. -/
def w32 (x : Nat) : Nat :=
  x % 4294967296

/-- 32-bit right rotation. -/
def rotr32 (n x : Nat) : Nat :=
  w32 ((x >>> n) ||| (x <<< (32 - n)))

def bsig0 (x : Nat) : Nat := rotr32 2 x ^^^ rotr32 13 x ^^^ rotr32 22 x

def bsig1 (x : Nat) : Nat := rotr32 6 x ^^^ rotr32 11 x ^^^ rotr32 25 x

def ssig0 (x : Nat) : Nat := rotr32 7 x ^^^ rotr32 18 x ^^^ (x >>> 3)

def ssig1 (x : Nat) : Nat := rotr32 17 x ^^^ rotr32 19 x ^^^ (x >>> 10)

def chF (x y z : Nat) : Nat := (x &&& y) ^^^ ((x ^^^ 4294967295) &&& z)

def majF (x y z : Nat) : Nat := (x &&& y) ^^^ (x &&& z) ^^^ (y &&& z)

/-- The 64 SHA-256 round constants. -/
def shaK : List Nat :=
  [1116352408, 1899447441, 3049323471, 3921009573, 961987163, 1508970993,
   2453635748, 2870763221, 3624381080, 310598401, 607225278, 1426881987,
   1925078388, 2162078206, 2614888103, 3248222580, 3835390401, 4022224774,
   264347078, 604807628, 770255983, 1249150122, 1555081692, 1996064986,
   2554220882, 2821834349, 2952996808, 3210313671, 3336571891, 3584528711,
   113926993, 338241895, 666307205, 773529912, 1294757372, 1396182291,
   1695183700, 1986661051, 2177026350, 2456956037, 2730485921, 2820302411,
   3259730800, 3345764771, 3516065817, 3600352804, 4094571909, 275423344,
   430227734, 506948616, 659060556, 883997877, 958139571, 1322822218,
   1537002063, 1747873779, 1955562222, 2024104815, 2227730452, 2361852424,
   2428436474, 2756734187, 3204031479, 3329325298]

/-- Working state: eight 32-bit words. -/
structure Hash8 where
  a : Nat
  b : Nat
  c : Nat
  d : Nat
  e : Nat
  f : Nat
  g : Nat
  h : Nat

/-- Extend the 16 block words to the 64-entry message schedule
(48 extension steps). -/
def scheduleGo : Nat → List Nat → List Nat
  | 0, ws => ws
  | n + 1, ws =>
    let l := ws.length
    let w := w32 (ssig1 (ws.getD (l - 2) 0) + ws.getD (l - 7) 0 +
      ssig0 (ws.getD (l - 15) 0) + ws.getD (l - 16) 0)
    scheduleGo n (ws ++ [w])

/-- The 64 compression rounds, consuming the schedule and round constants. -/
def compressGo : List Nat → List Nat → Hash8 → Hash8
  | wt :: ws, kt :: ks, st =>
    let t1 := w32 (st.h + bsig1 st.e + chF st.e st.f st.g + kt + wt)
    let t2 := w32 (bsig0 st.a + majF st.a st.b st.c)
    compressGo ws ks ⟨w32 (t1 + t2), st.a, st.b, st.c, w32 (st.d + t1), st.e, st.f, st.g⟩
  | _, _, st => st

/-- One 512-bit block: schedule, compress, add. -/
def processBlock (st : Hash8) (block : List Nat) : Hash8 :=
  let r := compressGo (scheduleGo 48 block) shaK st
  ⟨w32 (st.a + r.a), w32 (st.b + r.b), w32 (st.c + r.c), w32 (st.d + r.d),
   w32 (st.e + r.e), w32 (st.f + r.f), w32 (st.g + r.g), w32 (st.h + r.h)⟩

/-- The SHA-256 initial hash value. -/
def shaH0 : Hash8 :=
  ⟨1779033703, 3144134277, 1013904242, 2773480762,
   1359893119, 2600822924, 528734635, 1541459225⟩

/-- UTF-8 encoding of one character (Python `str.encode()`). -/
def utf8Bytes (c : Char) : List Nat :=
  let n := c.toNat
  if n < 0x80 then [n]
  else if n < 0x800 then [0xC0 ||| (n >>> 6), 0x80 ||| (n &&& 0x3F)]
  else if n < 0x10000 then
    [0xE0 ||| (n >>> 12), 0x80 ||| ((n >>> 6) &&& 0x3F), 0x80 ||| (n &&& 0x3F)]
  else
    [0xF0 ||| (n >>> 18), 0x80 ||| ((n >>> 12) &&& 0x3F),
     0x80 ||| ((n >>> 6) &&& 0x3F), 0x80 ||| (n &&& 0x3F)]

/-- UTF-8 bytes of a string. -/
def strToBytes (s : String) : List Nat :=
  (s.data.map utf8Bytes).join

/-- FIPS 180-4 padding: `0x80`, zeros to 56 mod 64, 64-bit big-endian bit
length. -/
def padBytes (m : List Nat) : List Nat :=
  let L := m.length
  let lenBits := 8 * L
  m ++ [0x80] ++ List.replicate ((119 - (L % 64)) % 64) 0 ++
    [w32 (lenBits >>> 56) % 256, (lenBits >>> 48) % 256, (lenBits >>> 40) % 256,
     (lenBits >>> 32) % 256, (lenBits >>> 24) % 256, (lenBits >>> 16) % 256,
     (lenBits >>> 8) % 256, lenBits % 256]

/-- Big-endian 32-bit words from bytes. -/
def toWords : List Nat → List Nat
  | b0 :: b1 :: b2 :: b3 :: rest =>
    ((b0 <<< 24) ||| (b1 <<< 16) ||| (b2 <<< 8) ||| b3) :: toWords rest
  | _ => []

/-- Chunk a word list into 16-word blocks (`fuel` bounds the number of
chunks; the word-list length always suffices). -/
def toBlocksGo : Nat → List Nat → List (List Nat)
  | 0, _ => []
  | _, [] => []
  | fuel + 1, ws => ws.take 16 :: toBlocksGo fuel (ws.drop 16)

/-- SHA-256 digest (32 bytes) of a byte list. -/
def sha256Bytes (msg : List Nat) : List Nat :=
  let ws := toWords (padBytes msg)
  let st := (toBlocksGo ws.length ws).foldl processBlock shaH0
  let wordBytes := fun (x : Nat) => [(x >>> 24) % 256, (x >>> 16) % 256, (x >>> 8) % 256, x % 256]
  wordBytes st.a ++ wordBytes st.b ++ wordBytes st.c ++ wordBytes st.d ++
    wordBytes st.e ++ wordBytes st.f ++ wordBytes st.g ++ wordBytes st.h

/-- Lowercase hex digit. -/
def hexChar (n : Nat) : Char :=
  Char.ofNat (if n < 10 then 48 + n else 87 + n)

/-- Lowercase hex rendering of bytes (`hexdigest()`). -/
def bytesHex (bytes : List Nat) : String :=
  ⟨(bytes.map (fun b => [hexChar (b / 16 % 16), hexChar (b % 16)])).join⟩

/-- `hashlib.sha256(s.encode()).hexdigest()`. -/
def sha256hex (s : String) : String :=
  bytesHex (sha256Bytes (strToBytes s))

set_option maxRecDepth 10000

/-! ### Canonical serialization (`json.dumps(value, sort_keys=True)`)

`record_tool_call` hashes `json.dumps(return_value, sort_keys=True,
default=str)` (or the raw string when the return value already is one).
`json.dumps` uses the default separators `", "` and `": "` and
`ensure_ascii=True`; `sort_keys=True` sorts each object's keys in code-point
order, independently of serializing its values, so the key sorting is hoisted
into the pre-pass `sortValue` below.  Python ints print in decimal
(the `q.den = 1` case of `numRepr`); the shortest-round-trip `repr` of a
non-integral float has no exact rational counterpart, so `numRepr` renders
those as `num/den` — the ledger claims hash integral and string data. -/

/-- Four hex digits (`\uXXXX`). -/
def hex4 (n : Nat) : List Char :=
  [hexChar (n >>> 12 % 16), hexChar (n >>> 8 % 16), hexChar (n >>> 4 % 16), hexChar (n % 16)]

/-- JSON escaping of one character with `ensure_ascii=True`
(astral code points as surrogate pairs). -/
def jsonEscapeChar (c : Char) : List Char :=
  if c == '"' then ['\\', '"']
  else if c == '\\' then ['\\', '\\']
  else if c == '\n' then ['\\', 'n']
  else if c == '\t' then ['\\', 't']
  else if c == '\r' then ['\\', 'r']
  else if c.toNat == 8 then ['\\', 'b']
  else if c.toNat == 12 then ['\\', 'f']
  else if c.toNat < 0x20 then '\\' :: 'u' :: hex4 c.toNat
  else if c.toNat < 0x80 then [c]
  else if c.toNat < 0x10000 then '\\' :: 'u' :: hex4 c.toNat
  else
    ('\\' :: 'u' :: hex4 (0xD800 + ((c.toNat - 0x10000) >>> 10))) ++
      ('\\' :: 'u' :: hex4 (0xDC00 + ((c.toNat - 0x10000) &&& 0x3FF)))

/-- A JSON string literal. -/
def jsonQuote (s : String) : List Char :=
  '"' :: (s.data.map jsonEscapeChar).join ++ ['"']

/-- Decimal rendering of an integer. -/
def intRepr (i : Int) : String :=
  if i < 0 then "-" ++ natDigits i.natAbs else natDigits i.natAbs

/-- Number rendering (see the section comment). -/
def numRepr (q : ℚ) : String :=
  if q.den = 1 then intRepr q.num else intRepr q.num ++ "/" ++ natDigits q.den

/-- Strict code-point order on strings (Python `<` on `str`). -/
def charListLt : List Char → List Char → Bool
  | [], [] => false
  | [], _ :: _ => true
  | _ :: _, [] => false
  | a :: as, b :: bs =>
    if a.toNat < b.toNat then true
    else if b.toNat < a.toNat then false
    else charListLt as bs

/-- Stable insertion into a key-sorted entry list. -/
def insertByKey (kv : String × Value) : List (String × Value) → List (String × Value)
  | [] => [kv]
  | kv2 :: rest =>
    if charListLt kv.1.data kv2.1.data then kv :: kv2 :: rest
    else kv2 :: insertByKey kv rest

/-- Stable sort of dict entries by key (`sorted` on the keys). -/
def sortEntries : List (String × Value) → List (String × Value)
  | [] => []
  | kv :: rest => insertByKey kv (sortEntries rest)

mutual

/-- Recursively sort all dict keys (the `sort_keys=True` pre-pass). -/
def sortValue : Value → Value
  | .null => .null
  | .num q => .num q
  | .str s => .str s
  | .list items => .list (sortValueList items)
  | .dict entries => .dict (sortEntries (sortValueEntries entries))

def sortValueList : List Value → List Value
  | [] => []
  | v :: vs => sortValue v :: sortValueList vs

def sortValueEntries : List (String × Value) → List (String × Value)
  | [] => []
  | (k, v) :: rest => (k, sortValue v) :: sortValueEntries rest

end

mutual

/-- `json.dumps` of a key-sorted value, with the default separators. -/
def jsonDumps : Value → List Char
  | .null => ['n', 'u', 'l', 'l']
  | .num q => (numRepr q).data
  | .str s => jsonQuote s
  | .list items => '[' :: jsonDumpsItems items ++ [']']
  | .dict entries => '{' :: jsonDumpsEntries entries ++ ['}']

def jsonDumpsItems : List Value → List Char
  | [] => []
  | [v] => jsonDumps v
  | v :: rest => jsonDumps v ++ [',', ' '] ++ jsonDumpsItems rest

def jsonDumpsEntries : List (String × Value) → List Char
  | [] => []
  | [(k, v)] => jsonQuote k ++ [':', ' '] ++ jsonDumps v
  | (k, v) :: rest => jsonQuote k ++ [':', ' '] ++ jsonDumps v ++ [',', ' '] ++ jsonDumpsEntries rest

end

/-- The canonical serialization hashed by `record_tool_call`: the raw string
itself when the value is a string, otherwise `json.dumps(v, sort_keys=True)`. -/
def canonicalSerial (v : Value) : String :=
  match v with
  | .str s => s
  | _ => ⟨jsonDumps (sortValue v)⟩

/-- Known-answer test: SHA-256 of the empty string. -/
theorem sha256hex_empty :
    sha256hex "" = "e3b0c44298fc1c149afbf4c8996fb92427ae41e4649b934ca495991b7852b855" := by
  decide

/-- Known-answer test: SHA-256 of `"abc"`. -/
theorem sha256hex_abc :
    sha256hex "abc" = "ba7816bf8f01cfea414140de5dae2223b00361a396177a9cb410ff61f20015ad" := by
  decide

/-! ### ToolRegistry (tools/tool_registry.py) -/

/-- The Python types used in `ToolSpec.arg_types` (`isinstance` targets).
Python `int`/`float` are merged like the numbers of `Value`. -/
inductive PyType where
  | strT
  | numT
  | listT
  | dictT

/-- `isinstance(value, arg_type)`. -/
def isinst : Value → PyType → Bool
  | .str _, .strT => true
  | .num _, .numT => true
  | .list _, .listT => true
  | .dict _, .dictT => true
  | _, _ => false

/-- `type(value).__name__` (numbers rendered as `float`; see `PyType`). -/
def valueTypeName : Value → String
  | .null => "NoneType"
  | .num _ => "float"
  | .str _ => "str"
  | .list _ => "list"
  | .dict _ => "dict"

/-- `ToolSpec`: the sets are modelled as lists (iteration order of the
singleton sets the registry uses is immaterial). -/
structure ToolSpec where
  name : String
  required_args : List String
  optional_args : List String
  arg_types : List (String × PyType)

/-- The registry's tool dictionary, in insertion order. -/
def ToolRegistry := List (String × ToolSpec)

/-- Python dict assignment: replace in place or append. -/
def dictSet (k : String) (v : ToolSpec) : ToolRegistry → ToolRegistry
  | [] => [(k, v)]
  | (k2, v2) :: rest => if k2 == k then (k, v) :: rest else (k2, v2) :: dictSet k v rest

/-- `ToolRegistry.register_tool`. -/
def register_tool (spec : ToolSpec) (reg : ToolRegistry) : ToolRegistry :=
  dictSet spec.name spec reg

/-- `_initialize_default_tools`: the four default specs, in registration
order. -/
def defaultRegistry : ToolRegistry :=
  register_tool ⟨"weather", ["query"], [], [("query", .strT)]⟩
    (register_tool ⟨"restaurant_search", ["query"], [], [("query", .strT)]⟩
      (register_tool ⟨"hotel_search", ["query"], [], [("query", .strT)]⟩
        (register_tool ⟨"flight_search", ["query"], [], [("query", .strT)]⟩ [])))

/-- `ToolRegistry.is_allowed`. -/
def is_allowed (reg : ToolRegistry) (tool_name : String) : Bool :=
  reg.any (fun kv => kv.1 == tool_name)

/-- Spec lookup (`self._tools[tool_name]`). -/
def lookupSpec (reg : ToolRegistry) (tool_name : String) : Option ToolSpec :=
  match reg.find? (fun kv => kv.1 == tool_name) with
  | some kv => some kv.2
  | none => none

/-- `ToolRegistry.get_allowed_tools` joined with `', '`
(as in the disallowed-tool message of `PlanValidator`). -/
def allowedToolsJoined (reg : ToolRegistry) : String :=
  match reg with
  | [] => ""
  | [kv] => kv.1
  | kv :: rest => kv.1 ++ ", " ++ allowedToolsJoined rest

/-- The required-argument loop of `validate_tool_call` on a dict `args`. -/
def checkRequired (args : List (String × Value)) : List String → Option String
  | [] => none
  | req :: rest =>
    if !dictHas args req then some ("Missing required argument: " ++ req)
    else
      let value := dictGet args req
      let isEmptyVal :=
        match value with
        | .null => true
        | .str s => pyStrip s == ""
        | _ => false
      if isEmptyVal then some ("Required argument '" ++ req ++ "' is empty")
      else checkRequired args rest

/-- The argument-type loop of `validate_tool_call` on a dict `args`. -/
def checkTypes (args : List (String × Value)) : List (String × PyType) → Option String
  | [] => none
  | (arg_name, t) :: rest =>
    if dictHas args arg_name then
      match dictGet args arg_name with
      | .null => checkTypes args rest
      | value =>
        if !isinst value t then
          some ("Argument '" ++ arg_name ++ "' must be of type " ++
            (match t with
             | .strT => "str"
             | .numT => "float"
             | .listT => "list"
             | .dictT => "dict") ++ ", got " ++ valueTypeName value)
        else checkTypes args rest
    else checkTypes args rest

/-- `ToolRegistry.validate_tool_call` on a dict-shaped `args` (the declared
`Dict[str, Any]` parameter type). -/
def validate_tool_call (reg : ToolRegistry) (tool_name : String)
    (args : List (String × Value)) : Bool × Option String :=
  if !is_allowed reg tool_name then
    (false, some ("Tool '" ++ tool_name ++ "' is not in the allow-list"))
  else
    match lookupSpec reg tool_name with
    | none => (false, some ("Tool '" ++ tool_name ++ "' is not in the allow-list"))
    | some spec =>
      match checkRequired args spec.required_args with
      | some e => (false, some e)
      | none =>
        match checkTypes args spec.arg_types with
        | some e => (false, some e)
        | none => (true, none)

/-! The same loops on a non-dict argument container, as reached through
`ToolRunner.execute_plan` (which forwards whatever truthy `args` value a plan
entry carries): `req_arg not in args` is Python membership — substring test
for `str`, element test for `list`, and a `TypeError` for non-iterable
values; a successful membership test then raises at the `args[req_arg]`
subscript. -/

/-- Does `hay` start with `needle`? -/
def leadsWith : List Char → List Char → Bool
  | [], _ => true
  | _ :: _, [] => false
  | a :: as, b :: bs => a == b && leadsWith as bs

/-- Substring test (Python `needle in hay` on strings). -/
def hasSub (needle : List Char) : List Char → Bool
  | [] => needle.isEmpty
  | c :: rest => leadsWith needle (c :: rest) || hasSub needle rest

/-- The required-argument loop on a non-dict container. -/
def checkRequiredContainer (container : Value) : List String → Except String (Option String)
  | [] => .ok none
  | req :: rest =>
    match container with
    | .str s =>
      if !hasSub req.data s.data then .ok (some ("Missing required argument: " ++ req))
      else .error "TypeError: string indices must be integers"
    | .list items =>
      if !(items.any (fun v => Value.beq v (.str req))) then
        .ok (some ("Missing required argument: " ++ req))
      else .error "TypeError: list indices must be integers or slices, not str"
    | .num _ => .error "TypeError: argument of type 'int' is not iterable"
    | .null => .error "TypeError: argument of type 'NoneType' is not iterable"
    | .dict args =>
      match checkRequired args [req] with
      | some e => .ok (some e)
      | none => checkRequiredContainer container rest

/-- The argument-type loop on a non-dict container. -/
def checkTypesContainer (container : Value) : List (String × PyType) → Except String (Option String)
  | [] => .ok none
  | (arg_name, t) :: rest =>
    match container with
    | .str s =>
      if hasSub arg_name.data s.data then .error "TypeError: string indices must be integers"
      else checkTypesContainer container rest
    | .list items =>
      if items.any (fun v => Value.beq v (.str arg_name)) then
        .error "TypeError: list indices must be integers or slices, not str"
      else checkTypesContainer container rest
    | .num _ => .error "TypeError: argument of type 'int' is not iterable"
    | .null => .error "TypeError: argument of type 'NoneType' is not iterable"
    | .dict args =>
      match checkTypes args [(arg_name, t)] with
      | some e => .ok (some e)
      | none => checkTypesContainer container rest

/-- `validate_tool_call` on an arbitrary argument container (`.error` is a
Python exception escaping the registry). -/
def validateAnyArgs (reg : ToolRegistry) (tool_name : String) (args : Value) :
    Except String (Bool × Option String) :=
  match args with
  | .dict kvs => .ok (validate_tool_call reg tool_name kvs)
  | container =>
    if !is_allowed reg tool_name then
      .ok (false, some ("Tool '" ++ tool_name ++ "' is not in the allow-list"))
    else
      match lookupSpec reg tool_name with
      | none => .ok (false, some ("Tool '" ++ tool_name ++ "' is not in the allow-list"))
      | some spec => do
        match ← checkRequiredContainer container spec.required_args with
        | some e => pure (false, some e)
        | none =>
          match ← checkTypesContainer container spec.arg_types with
          | some e => pure (false, some e)
          | none => pure (true, none)

/-! ### GreenAgentController (infrastructure/controller.py) and
TraceLedgerManager (execution/trace_ledger.py)

Stateful code becomes explicit state passing.  The non-deterministic inputs
`datetime.now()` and `uuid.uuid4()` are parameters (`now`, `freshId`) of the
transition functions, and `extract_df_operations` (utils/df_parser.py, a
best-effort regex analyzer whose output no claim touches) is abstracted as a
function parameter `extractDf`.  The event push at the end of
`record_tool_call` goes to the process-global `EventQueue` and never touches
ledger state (it is wrapped in `try/except`), so it is not part of this
state. -/

/-- `ToolCallTrace` (models/trace_models.py).  `return_value = .null` models
Python `None`. -/
structure ToolCallTrace where
  timestamp : Nat
  run_id : String
  tool_name : String
  arguments : Value
  return_value : Value
  return_value_hash : Option String
  execution_time_ms : Option ℚ
  error : Option String
  df_operations : Option (List Value)

/-- `TraceLedger` (models/trace_models.py). -/
structure TraceLedger where
  run_id : String
  created_at : Nat
  traces : List ToolCallTrace

/-- `GreenAgentController` state (seed manager and scenario omitted: the one
use of `get_run_hash()` in `record_tool_call` stores its result nowhere, and
no claim touches the seed). -/
structure ControllerState where
  run_id : Option String
  state : List (String × Value)

/-- `GreenAgentController.start_run`: install the given run id, or the
freshly generated `uuid.uuid4()` (`freshId`) when none is given. -/
def start_run (freshId : String) (run_id? : Option String) (st : ControllerState) :
    String × ControllerState :=
  let rid := run_id?.getD freshId
  (rid, { run_id := some rid, state := [] })

/-- `TraceLedgerManager` state: the controller, the optional ledger, and the
`_traces` list. -/
structure LedgerMgr where
  controller : ControllerState
  ledger : Option TraceLedger
  traces : List ToolCallTrace

/-- A manager as constructed (`ledger = None`, no traces, no run started). -/
def freshLedgerMgr : LedgerMgr :=
  { controller := { run_id := none, state := [] }, ledger := none, traces := [] }

/-- `TraceLedgerManager.initialize` (named `initLedger` here): fresh, empty ledger; the controller
starts a run (minting `freshId`) only when no run id is supplied. -/
def initLedger (freshId : String) (now : Nat) (run_id? : Option String)
    (st : LedgerMgr) : LedgerMgr :=
  let (rid, ctrl) :=
    match run_id? with
    | none => start_run freshId none st.controller
    | some r => (r, st.controller)
  { controller := ctrl,
    ledger := some { run_id := rid, created_at := now, traces := [] },
    traces := [] }

/-- The trace built by `record_tool_call`: the df-operation extraction for
`python_repl_ast` inputs, the content hash of a non-`None` return value, and
the field assembly. -/
def mkTrace (extractDf : String → Option (List Value)) (now : Nat) (run_id : String)
    (tool_name : String) (arguments return_value : Value)
    (execution_time_ms : Option ℚ) (error : Option String) (tool_input : Option String) :
    ToolCallTrace :=
  { timestamp := now, run_id := run_id, tool_name := tool_name,
    arguments := arguments, return_value := return_value,
    return_value_hash :=
      match return_value with
      | .null => none
      | rv => some ((sha256hex (canonicalSerial rv)).take 16),
    execution_time_ms := execution_time_ms, error := error,
    df_operations :=
      if tool_name == "python_repl_ast" then
        match tool_input with
        | some ti => if ti != "" then extractDf ti else none
        | none => none
      else none }

/-- `TraceLedgerManager.record_tool_call`. -/
def record_tool_call (extractDf : String → Option (List Value))
    (now : Nat) (freshId : String) (st : LedgerMgr)
    (tool_name : String) (arguments : Value) (return_value : Value)
    (execution_time_ms : Option ℚ) (error : Option String) (tool_input : Option String) :
    LedgerMgr :=
  let st1 := if st.ledger.isSome then st else initLedger freshId now none st
  let trace := mkTrace extractDf now (st1.controller.run_id.getD "unknown") tool_name
    arguments return_value execution_time_ms error tool_input
  { st1 with
    traces := st1.traces ++ [trace],
    ledger :=
      match st1.ledger with
      | some led => some { led with traces := led.traces ++ [trace] }
      | none => none }

/-- `TraceLedgerManager.get_traces` (returns a copy; in this functional model
the caller cannot mutate the ledger in any case). -/
def get_traces (st : LedgerMgr) : List ToolCallTrace :=
  st.traces

/-- `TraceLedgerManager.clear`. -/
def clearLedger (st : LedgerMgr) : LedgerMgr :=
  { st with ledger := none, traces := [] }

/-- `TraceLedgerManager.get_ledger` (refreshes `ledger.traces` from
`_traces`). -/
def get_ledger (st : LedgerMgr) : Option TraceLedger × LedgerMgr :=
  match st.ledger with
  | some led =>
    let led2 := { led with traces := st.traces }
    (some led2, { st with ledger := some led2 })
  | none => (none, st)

/-! ### ToolRunner (execution/tool_runner.py)

`execute_tool_call` takes the registry, the `_tool_functions` table (each
tool modelled as `Value → Except String Value`, exceptions as `.error`), and
the wall-clock inputs as parameters.  The measured duration is the parameter
`duration` (its value affects no claim).  The outer `Except String` of
`execute_tool_call` carries a Python exception escaping the method — which
happens exactly when registry validation itself raises: for non-dict
argument containers (`req_arg not in args` on a non-iterable), and for an
unhashable tool value (`tool_name in self._tools` with a `dict`/`list`
name, reachable only through `execute_plan`, which forwards the plan
entry's tool value unchanged), never for the three failure classes the
runner handles. -/

/-- The result dict of `execute_tool_call` (`execution_time_ms = none` models
the absent key on the two early-failure paths). -/
structure ExecResult where
  success : Bool
  result : Value
  error : Option String
  execution_time_ms : Option ℚ

/-- `ToolRunner.execute_tool_call`. -/
def execute_tool_call (extractDf : String → Option (List Value))
    (now : Nat) (freshId : String) (duration : ℚ)
    (reg : ToolRegistry) (tools : List (String × (Value → Except String Value)))
    (st : LedgerMgr) (tool_name : String) (arguments : Value) :
    Except String (ExecResult × LedgerMgr) := do
  match ← validateAnyArgs reg tool_name arguments with
  | (false, error_msg) =>
    let st2 := record_tool_call extractDf now freshId st tool_name arguments .null
      none error_msg none
    pure ({ success := false, result := .null, error := error_msg,
            execution_time_ms := none }, st2)
  | (true, _) =>
    match tools.find? (fun kv => kv.1 == tool_name) with
    | none =>
      let error_msg := "Tool '" ++ tool_name ++ "' not registered"
      let st2 := record_tool_call extractDf now freshId st tool_name arguments .null
        none (some error_msg) none
      pure ({ success := false, result := .null, error := some error_msg,
              execution_time_ms := none }, st2)
    | some kv =>
      let query :=
        match arguments with
        | .dict kvs => if dictHas kvs "query" then dictGet kvs "query" else .str ""
        | _ => .null
      match kv.2 query with
      | .ok result =>
        let st2 := record_tool_call extractDf now freshId st tool_name arguments result
          (some duration) none none
        pure ({ success := true, result := result, error := none,
                execution_time_ms := some duration }, st2)
      | .error e =>
        let st2 := record_tool_call extractDf now freshId st tool_name arguments .null
          (some duration) (some e) none
        pure ({ success := false, result := .null, error := some e,
                execution_time_ms := some duration }, st2)

/-- Python `a or b` (first truthy operand). -/
def pyOr (a b : Value) : Value :=
  if a.truthy then a else b

/-- `str(value)` for the places a message renders a non-string value
(containers rendered coarsely; no claim formats a container into a message). -/
def pyStr : Value → String
  | .null => "None"
  | .num q => numRepr q
  | .str s => s
  | .list _ => "<list>"
  | .dict _ => "<dict>"

/-- Python-unhashable value shapes (`dict`, `list`): probing them against a
dict's keys (`tool_name in self._tools`, tool_registry.py line 65) raises
`TypeError` before anything is recorded. -/
def unhashable : Value → Bool
  | .list _ => true
  | .dict _ => true
  | _ => false

/-- The `TypeError` message of an unhashable membership probe. -/
def unhashMsg : Value → String
  | .list _ => "TypeError: unhashable type: 'list'"
  | .dict _ => "TypeError: unhashable type: 'dict'"
  | _ => ""

/-- `ToolRunner.execute_plan`: strictly sequential fold over the plan.  Each
entry is a dict (`List[Dict[str, Any]]`); the effective tool name and
arguments follow the `or`-chains of the source.  The source forwards the
tool value unchanged into `execute_tool_call` → `validate_tool_call`:
a truthy `dict`/`list` tool value raises `TypeError` at the allow-list
membership probe (surfaced here, since the embedded `execute_tool_call`
covers the `tool_name: str` the runner's API declares — on that path Python
records nothing either); any other truthy tool value is hashable, is never
one of the registry's string keys, and renders through `str` in the one
message and trace field that observe it, so it is passed on as `pyStr tn`. -/
def execute_plan (extractDf : String → Option (List Value))
    (now : Nat) (freshId : String) (duration : ℚ)
    (reg : ToolRegistry) (tools : List (String × (Value → Except String Value)))
    (st : LedgerMgr) (tool_calls : List (List (String × Value))) :
    Except String (List ExecResult × LedgerMgr) := do
  match tool_calls with
  | [] => pure ([], st)
  | call :: rest =>
    let tn := pyOr (dictGet call "tool") (dictGet call "tool_name")
    if !tn.truthy then do
      let (results, st2) ← execute_plan extractDf now freshId duration reg tools st rest
      pure ({ success := false, result := .null,
              error := some "Missing tool name in tool call",
              execution_time_ms := none } :: results, st2)
    else if unhashable tn then .error (unhashMsg tn)
    else do
      let args := pyOr (pyOr (dictGet call "args") (dictGet call "arguments")) (.dict [])
      let (result, st1) ← execute_tool_call extractDf now freshId duration reg tools st
        (pyStr tn) args
      let (results, st2) ← execute_plan extractDf now freshId duration reg tools st1 rest
      pure (result :: results, st2)

/-- The effective arguments value of a plan entry
(`call.get('args') or call.get('arguments') or {}`). -/
def effArgs (call : List (String × Value)) : Value :=
  pyOr (pyOr (dictGet call "args") (dictGet call "arguments")) (.dict [])

/-- The effective arguments value is dict-shaped. -/
def argsOk (call : List (String × Value)) : Bool :=
  match effArgs call with
  | .dict _ => true
  | _ => false

/-- The effective tool value of a plan entry is hashable, so the registry
membership probe cannot raise. -/
def toolNameOk (call : List (String × Value)) : Bool :=
  !unhashable (pyOr (dictGet call "tool") (dictGet call "tool_name"))

/-- One `record_tool_call` input (for iterating records). -/
structure RecordInput where
  tool_name : String
  arguments : Value
  return_value : Value
  execution_time_ms : Option ℚ
  error : Option String
  tool_input : Option String

/-- Fold a list of `record_tool_call` invocations over the manager state. -/
def applyRecords (extractDf : String → Option (List Value)) (now : Nat) (freshId : String) :
    List RecordInput → LedgerMgr → LedgerMgr
  | [], st => st
  | p :: ps, st =>
    applyRecords extractDf now freshId ps
      (record_tool_call extractDf now freshId st p.tool_name p.arguments p.return_value
        p.execution_time_ms p.error p.tool_input)

/-- Every state the manager can reach: a ledger exists, or no trace has been
recorded since construction/`clear` (auto-initialization on an unreachable
state would discard traces, like the source's `initialize`). -/
def reachableMgr (st : LedgerMgr) : Prop :=
  st.ledger.isSome = true ∨ st.traces = []

theorem record_ledger_isSome (extractDf : String → Option (List Value))
    (now : Nat) (freshId : String) (st : LedgerMgr) (tool_name : String)
    (arguments return_value : Value) (tms : Option ℚ) (error : Option String)
    (tool_input : Option String) :
    (record_tool_call extractDf now freshId st tool_name arguments return_value
      tms error tool_input).ledger.isSome = true := by
  cases hsl : st.ledger with
  | some led => simp [record_tool_call, hsl]
  | none => simp [record_tool_call, hsl, initLedger, start_run]

theorem record_appends_one (extractDf : String → Option (List Value))
    (now : Nat) (freshId : String) (st : LedgerMgr) (hre : reachableMgr st)
    (tool_name : String) (arguments return_value : Value) (tms : Option ℚ)
    (error : Option String) (tool_input : Option String) :
    ∃ tr, (record_tool_call extractDf now freshId st tool_name arguments return_value
      tms error tool_input).traces = st.traces ++ [tr] := by
  cases hsl : st.ledger with
  | some led =>
    refine ⟨mkTrace extractDf now (st.controller.run_id.getD "unknown") tool_name
      arguments return_value tms error tool_input, ?_⟩
    simp [record_tool_call, hsl]
  | none =>
    have htr : st.traces = [] := hre.resolve_left (by simp [hsl])
    refine ⟨mkTrace extractDf now freshId tool_name arguments return_value tms error
      tool_input, ?_⟩
    simp [record_tool_call, hsl, initLedger, start_run, htr]

theorem applyRecords_length (extractDf : String → Option (List Value))
    (now : Nat) (freshId : String) :
    ∀ (ps : List RecordInput) (st : LedgerMgr), reachableMgr st →
      (applyRecords extractDf now freshId ps st).traces.length =
        st.traces.length + ps.length := by
  intro ps
  induction ps with
  | nil => intro st _; simp [applyRecords]
  | cons p ps ih =>
    intro st hre
    rw [applyRecords]
    rw [ih _ (Or.inl (record_ledger_isSome extractDf now freshId st p.tool_name p.arguments
      p.return_value p.execution_time_ms p.error p.tool_input))]
    obtain ⟨tr, htr⟩ := record_appends_one extractDf now freshId st hre p.tool_name
      p.arguments p.return_value p.execution_time_ms p.error p.tool_input
    rw [htr]
    simp
    omega

/-- C3 (amended): the ledger is append-only.  Every `record_tool_call`
appends exactly one trace (existing traces are preserved as a prefix and
never mutated); after `N` records following `initLedger` or `clear`,
`get_traces()` has length `N`; `get_traces`/`get_ledger` do not change the
trace list; and `clear()` and `initLedger` (the run-boundary operations) are
the operations that reset the count to `0`. -/
theorem C3_ledger_append_only (extractDf : String → Option (List Value))
    (now : Nat) (freshId : String) :
    (∀ (st : LedgerMgr), reachableMgr st →
      ∀ (tool_name : String) (arguments return_value : Value)
      (tms : Option ℚ) (error : Option String) (tool_input : Option String),
      ∃ tr, (record_tool_call extractDf now freshId st tool_name arguments return_value
        tms error tool_input).traces = st.traces ++ [tr]) ∧
    (∀ (ps : List RecordInput) (st : LedgerMgr),
      (applyRecords extractDf now freshId ps (clearLedger st)).traces.length = ps.length ∧
      (applyRecords extractDf now freshId ps
        (initLedger freshId now none st)).traces.length = ps.length) ∧
    (∀ st : LedgerMgr, get_traces st = st.traces ∧ (get_ledger st).2.traces = st.traces ∧
      (clearLedger st).traces.length = 0) := by
  refine ⟨record_appends_one extractDf now freshId, fun ps st => ⟨?_, ?_⟩,
    fun st => ⟨rfl, ?_, ?_⟩⟩
  · rw [applyRecords_length _ _ _ _ _ (Or.inr rfl)]
    simp [clearLedger]
  · rw [applyRecords_length _ _ _ _ _ (Or.inl (by simp [initLedger]))]
    simp [initLedger]
  · unfold get_ledger
    cases st.ledger <;> simp
  · simp [clearLedger]

/-- C3 witness: the append-only theorem applied on the fresh manager state. -/
theorem C3_ledger_append_only_witness :
    reachableMgr freshLedgerMgr ∧
    ∃ tr, (record_tool_call (fun _ => none) 0 "run-1" freshLedgerMgr
      "flight_search" (.dict []) (.str "r") none none none).traces =
        freshLedgerMgr.traces ++ [tr] :=
  ⟨Or.inr rfl,
   (C3_ledger_append_only (fun _ => none) 0 "run-1").1 freshLedgerMgr (Or.inr rfl)
     "flight_search" (.dict []) (.str "r") none none none⟩

/-- C3 counterexample: `clear()` is not the only operation that resets the
trace count to zero — `initialize()` does too: after one recorded call the
count is `1`, and a subsequent `initialize()` leaves `get_traces()` empty. -/
theorem C3_counterexample :
    (get_traces (record_tool_call (fun _ => none) 0 "run-1" freshLedgerMgr
      "flight_search" (.dict []) (.str "r") none none none)).length = 1 ∧
    (get_traces (initLedger "run-2" 1 none (record_tool_call (fun _ => none) 0 "run-1"
      freshLedgerMgr "flight_search" (.dict []) (.str "r") none none none))).length = 0 := by
  constructor
  · simp [get_traces, record_tool_call, initLedger, start_run, freshLedgerMgr]
  · simp [get_traces, initLedger, start_run]

/-- The `return_value_hash` of the most recently appended trace. -/
def lastRecordedHash (st : LedgerMgr) : Option (Option String) :=
  st.traces.getLast?.map (fun tr => tr.return_value_hash)

/-- C4: `return_value_hash` is a pure function of the canonical serialization
of `return_value` (the raw string itself for strings, `json.dumps` with
sorted keys otherwise): any two `record_tool_call` invocations — on any
manager states, tools, arguments, timings — whose non-`None` return values
serialize identically store identical hashes, namely the first 16 hex
characters of the SHA-256 digest of that serialization. -/
theorem C4_hash_pure (extractDf1 extractDf2 : String → Option (List Value))
    (now1 now2 : Nat) (freshId1 freshId2 : String) (st1 st2 : LedgerMgr)
    (n1 n2 : String) (a1 a2 : Value) (rv1 rv2 : Value)
    (t1 t2 : Option ℚ) (e1 e2 : Option String) (ti1 ti2 : Option String)
    (h1 : rv1 ≠ .null) (h2 : rv2 ≠ .null)
    (hser : canonicalSerial rv1 = canonicalSerial rv2) :
    lastRecordedHash (record_tool_call extractDf1 now1 freshId1 st1 n1 a1 rv1 t1 e1 ti1) =
      some (some ((sha256hex (canonicalSerial rv1)).take 16)) ∧
    lastRecordedHash (record_tool_call extractDf2 now2 freshId2 st2 n2 a2 rv2 t2 e2 ti2) =
      lastRecordedHash (record_tool_call extractDf1 now1 freshId1 st1 n1 a1 rv1 t1 e1 ti1) := by
  have key : ∀ (extractDf : String → Option (List Value)) (now : Nat) (freshId : String)
      (st : LedgerMgr) (n : String) (a rv : Value) (t : Option ℚ) (e ti : Option String),
      rv ≠ .null →
      lastRecordedHash (record_tool_call extractDf now freshId st n a rv t e ti) =
        some (some ((sha256hex (canonicalSerial rv)).take 16)) := by
    intro extractDf now freshId st n a rv t e ti hrv
    have hmk : ∀ rid : String, (mkTrace extractDf now rid n a rv t e ti).return_value_hash =
        some ((sha256hex (canonicalSerial rv)).take 16) := by
      intro rid
      cases rv with
      | null => exact absurd rfl hrv
      | num q => rfl
      | str s => rfl
      | list l => rfl
      | dict d => rfl
    cases hsl : st.ledger with
    | some led => simp [record_tool_call, lastRecordedHash, hsl, hmk]
    | none => simp [record_tool_call, lastRecordedHash, hsl, initLedger, start_run, hmk]
  refine ⟨key extractDf1 now1 freshId1 st1 n1 a1 rv1 t1 e1 ti1 h1, ?_⟩
  rw [key extractDf1 now1 freshId1 st1 n1 a1 rv1 t1 e1 ti1 h1,
    key extractDf2 now2 freshId2 st2 n2 a2 rv2 t2 e2 ti2 h2, hser]

/-- C4 witness: two records of the same dict written in different key orders
(on different manager states and tools) store the same hash. -/
theorem C4_hash_pure_witness :
    Value.dict [("b", .num 1), ("a", .num 2)] ≠ Value.null ∧
    Value.dict [("a", .num 2), ("b", .num 1)] ≠ Value.null ∧
    canonicalSerial (.dict [("b", .num 1), ("a", .num 2)]) =
      canonicalSerial (.dict [("a", .num 2), ("b", .num 1)]) ∧
    lastRecordedHash (record_tool_call (fun _ => none) 5 "runA" freshLedgerMgr
        "flight_search" (.dict []) (.dict [("b", .num 1), ("a", .num 2)]) none none none) =
      some (some ((sha256hex (canonicalSerial
        (Value.dict [("b", .num 1), ("a", .num 2)]))).take 16)) ∧
    lastRecordedHash (record_tool_call (fun _ => none) 9 "runB" freshLedgerMgr
        "hotel_search" (.dict []) (.dict [("a", .num 2), ("b", .num 1)]) none none none) =
      lastRecordedHash (record_tool_call (fun _ => none) 5 "runA" freshLedgerMgr
        "flight_search" (.dict []) (.dict [("b", .num 1), ("a", .num 2)]) none none none) := by
  have hser : canonicalSerial (.dict [("b", .num 1), ("a", .num 2)]) =
      canonicalSerial (.dict [("a", .num 2), ("b", .num 1)]) := by
    simp [canonicalSerial, sortValue, sortValueEntries, sortEntries, insertByKey, charListLt,
      jsonDumps, jsonDumpsEntries, jsonQuote, jsonEscapeChar, numRepr, intRepr, natDigits,
      natDigitsGo]
  have h12 := C4_hash_pure (fun _ => none) (fun _ => none) 5 9 "runA" "runB"
    freshLedgerMgr freshLedgerMgr "flight_search" "hotel_search" (.dict []) (.dict [])
    (.dict [("b", .num 1), ("a", .num 2)]) (.dict [("a", .num 2), ("b", .num 1)])
    none none none none none none (by simp) (by simp) hser
  exact ⟨by simp, by simp, hser, h12.1, h12.2⟩

/-- C10: `record_tool_call` on a fresh manager (no `initialize()` yet)
implicitly creates a ledger — starting a run whose id is the freshly
generated uuid — and appends the trace: afterwards `get_traces()` has
length 1, a ledger exists, and the controller carries the auto-generated
run id, which the recorded trace also carries. -/
theorem C10_record_auto_initializes (extractDf : String → Option (List Value))
    (now : Nat) (freshId : String) (tool_name : String)
    (arguments return_value : Value) (tms : Option ℚ) (error : Option String)
    (tool_input : Option String) :
    (get_traces (record_tool_call extractDf now freshId freshLedgerMgr tool_name arguments
      return_value tms error tool_input)).length = 1 ∧
    (record_tool_call extractDf now freshId freshLedgerMgr tool_name arguments
      return_value tms error tool_input).ledger.isSome = true ∧
    (record_tool_call extractDf now freshId freshLedgerMgr tool_name arguments
      return_value tms error tool_input).controller.run_id = some freshId ∧
    (record_tool_call extractDf now freshId freshLedgerMgr tool_name arguments
      return_value tms error tool_input).traces.map (fun tr => tr.run_id) = [freshId] := by
  refine ⟨?_, ?_, ?_, ?_⟩ <;>
    simp [get_traces, record_tool_call, initLedger, start_run, freshLedgerMgr, mkTrace]

theorem exceptBind_ok {α β : Type} (a : α) (f : α → Except String β) :
    (Except.ok a : Except String α) >>= f = f a := rfl

theorem exceptBind_error {α β : Type} (e : String) (f : α → Except String β) :
    (Except.error e : Except String α) >>= f = Except.error e := rfl

theorem exceptMap_ok {α β : Type} (a : α) (f : α → β) :
    (Except.ok a : Except String α).map f = Except.ok (f a) := rfl

theorem exceptMap_error {α β : Type} (e : String) (f : α → β) :
    (Except.error e : Except String α).map f = Except.error e := rfl

theorem exceptPure {α : Type} (a : α) : (pure a : Except String α) = Except.ok a := rfl

theorem exceptFMap {α β : Type} (f : α → β) (x : Except String α) :
    f <$> x = x.map f := rfl

theorem exceptBindF_ok {α β : Type} (a : α) (f : α → Except String β) :
    (Except.ok a : Except String α).bind f = f a := rfl

theorem exceptBindF_error {α β : Type} (e : String) (f : α → Except String β) :
    (Except.error e : Except String α).bind f = Except.error e := rfl

theorem validate_shape (reg : ToolRegistry) (tool_name : String)
    (args : List (String × Value)) :
    validate_tool_call reg tool_name args = (true, none) ∨
      ∃ e, validate_tool_call reg tool_name args = (false, some e) := by
  unfold validate_tool_call
  split
  · exact Or.inr ⟨_, rfl⟩
  · split
    · exact Or.inr ⟨_, rfl⟩
    · split
      · exact Or.inr ⟨_, rfl⟩
      · split
        · exact Or.inr ⟨_, rfl⟩
        · exact Or.inl rfl

theorem execute_tool_call_ok (extractDf : String → Option (List Value))
    (now : Nat) (freshId : String) (duration : ℚ) (reg : ToolRegistry)
    (tools : List (String × (Value → Except String Value)))
    (st : LedgerMgr) (hre : reachableMgr st) (tool_name : String)
    (kvs : List (String × Value)) :
    ∃ r st' tr, execute_tool_call extractDf now freshId duration reg tools st tool_name
        (.dict kvs) = .ok (r, st') ∧
      st'.traces = st.traces ++ [tr] ∧ (r.success = true ↔ r.error = none) ∧
      st'.ledger.isSome = true := by
  have hled := fun nm a rv t e ti =>
    record_ledger_isSome extractDf now freshId st nm a rv t e ti
  rcases validate_shape reg tool_name kvs with hval | ⟨e, hval⟩
  · simp only [execute_tool_call, validateAnyArgs, hval]
    cases hfind : tools.find? (fun kv => kv.1 == tool_name) with
    | none =>
      obtain ⟨tr, htr⟩ := record_appends_one extractDf now freshId st hre tool_name
        (.dict kvs) .null none (some ("Tool '" ++ tool_name ++ "' not registered")) none
      refine ⟨ExecResult.mk false .null
          (some ("Tool '" ++ tool_name ++ "' not registered")) none,
        record_tool_call extractDf now freshId st tool_name (.dict kvs) .null none
          (some ("Tool '" ++ tool_name ++ "' not registered")) none,
        tr, ?_, htr, by simp, hled _ _ _ _ _ _⟩
      simp only [exceptBind_ok, exceptPure, hfind]
    | some kv =>
      cases hrun : kv.2 (if dictHas kvs "query" then dictGet kvs "query" else .str "") with
      | ok result =>
        obtain ⟨tr, htr⟩ := record_appends_one extractDf now freshId st hre tool_name
          (.dict kvs) result (some duration) none none
        refine ⟨ExecResult.mk true result none (some duration),
          record_tool_call extractDf now freshId st tool_name (.dict kvs) result
            (some duration) none none,
          tr, ?_, htr, by simp, hled _ _ _ _ _ _⟩
        simp only [exceptBind_ok, exceptPure, hfind, hrun]
      | error ex =>
        obtain ⟨tr, htr⟩ := record_appends_one extractDf now freshId st hre tool_name
          (.dict kvs) .null (some duration) (some ex) none
        refine ⟨ExecResult.mk false .null (some ex) (some duration),
          record_tool_call extractDf now freshId st tool_name (.dict kvs) .null
            (some duration) (some ex) none,
          tr, ?_, htr, by simp, hled _ _ _ _ _ _⟩
        simp only [exceptBind_ok, exceptPure, hfind, hrun]
  · simp only [execute_tool_call, validateAnyArgs, hval]
    obtain ⟨tr, htr⟩ := record_appends_one extractDf now freshId st hre tool_name
      (.dict kvs) .null none (some e) none
    refine ⟨ExecResult.mk false .null (some e) none,
      record_tool_call extractDf now freshId st tool_name (.dict kvs) .null none
        (some e) none,
      tr, ?_, htr, by simp, hled _ _ _ _ _ _⟩
    simp only [exceptBind_ok, exceptPure]

theorem execute_plan_ok (extractDf : String → Option (List Value))
    (now : Nat) (freshId : String) (duration : ℚ) (reg : ToolRegistry)
    (tools : List (String × (Value → Except String Value))) :
    ∀ (tool_calls : List (List (String × Value))) (st : LedgerMgr), reachableMgr st →
      tool_calls.all argsOk = true → tool_calls.all toolNameOk = true →
      ∃ results st', execute_plan extractDf now freshId duration reg tools st tool_calls =
          .ok (results, st') ∧ results.length = tool_calls.length := by
  intro tool_calls
  induction tool_calls with
  | nil =>
    intro st _ _ _
    exact ⟨[], st, rfl, rfl⟩
  | cons call rest ih =>
    intro st hre hok htok
    rw [List.all_cons, Bool.and_eq_true] at hok htok
    have hunh : unhashable (pyOr (dictGet call "tool") (dictGet call "tool_name"))
        = false := by
      have := htok.1
      rw [toolNameOk, Bool.not_eq_eq_eq_not, Bool.not_true] at this
      exact this
    by_cases htn : (pyOr (dictGet call "tool") (dictGet call "tool_name")).truthy = true
    · have hargs : ∃ kvs, effArgs call = .dict kvs := by
        have := hok.1
        unfold argsOk at this
        cases heff : effArgs call <;> rw [heff] at this <;> first | exact ⟨_, rfl⟩ | cases this
      obtain ⟨kvs, hkvs⟩ := hargs
      obtain ⟨r, st1, tr, hexec, htr, hfields, hsome⟩ := execute_tool_call_ok extractDf now
        freshId duration reg tools st hre (pyStr (pyOr (dictGet call "tool")
        (dictGet call "tool_name"))) kvs
      obtain ⟨results, st2, hplan, hlen⟩ := ih st1 (Or.inl hsome) hok.2 htok.2
      refine ⟨r :: results, st2, ?_, by simp [hlen]⟩
      rw [execute_plan]
      simp only [htn, Bool.not_true, if_neg Bool.false_ne_true, hunh,
        Bool.false_eq_true, if_false]
      have heff2 : pyOr (pyOr (dictGet call "args") (dictGet call "arguments")) (.dict []) =
          .dict kvs := hkvs
      rw [heff2, hexec]
      simp [exceptBind_ok, exceptPure, hplan]
    · obtain ⟨results, st2, hplan, hlen⟩ := ih st hre hok.2 htok.2
      refine ⟨ExecResult.mk false .null (some "Missing tool name in tool call") none
        :: results, st2, ?_, by simp [hlen]⟩
      rw [execute_plan]
      simp only [Bool.not_eq_true] at htn
      simp only [htn, Bool.not_false, if_pos rfl]
      simp [exceptBind_ok, exceptPure, hplan]

theorem execute_plan_append (extractDf : String → Option (List Value))
    (now : Nat) (freshId : String) (duration : ℚ) (reg : ToolRegistry)
    (tools : List (String × (Value → Except String Value))) :
    ∀ (pre post : List (List (String × Value))) (st : LedgerMgr),
      execute_plan extractDf now freshId duration reg tools st (pre ++ post) =
        (execute_plan extractDf now freshId duration reg tools st pre).bind
          (fun rs1 => (execute_plan extractDf now freshId duration reg tools rs1.2 post).map
            (fun rs2 => (rs1.1 ++ rs2.1, rs2.2))) := by
  intro pre
  induction pre with
  | nil =>
    intro post st
    simp only [List.nil_append, execute_plan, exceptPure, exceptBindF_ok]
    cases hpl : execute_plan extractDf now freshId duration reg tools st post with
    | ok rs => cases rs with | mk a b => simp [exceptMap_ok]
    | error e => simp [exceptMap_error]
  | cons call pre ih =>
    intro post st
    rw [List.cons_append, execute_plan, execute_plan]
    by_cases htn : (pyOr (dictGet call "tool") (dictGet call "tool_name")).truthy = true
    · simp only [htn, Bool.not_true, if_neg Bool.false_ne_true]
      by_cases hunh : unhashable (pyOr (dictGet call "tool") (dictGet call "tool_name"))
          = true
      · simp [hunh, exceptBindF_error]
      simp only [Bool.not_eq_true] at hunh
      simp only [hunh, Bool.false_eq_true, if_false]
      cases hexec : execute_tool_call extractDf now freshId duration reg tools st
          (pyStr (pyOr (dictGet call "tool") (dictGet call "tool_name")))
          (pyOr (pyOr (dictGet call "args") (dictGet call "arguments")) (.dict [])) with
      | ok rs1 =>
        cases rs1 with
        | mk r st1 =>
          simp only [exceptBind_ok]
          rw [ih post st1]
          cases hpre : execute_plan extractDf now freshId duration reg tools st1 pre with
          | ok rsp =>
            cases rsp with
            | mk resultsPre st2 =>
              simp only [exceptBind_ok]
              cases hpost : execute_plan extractDf now freshId duration reg tools st2 post with
              | ok rsq =>
                cases rsq with
                | mk resultsPost st3 =>
                  simp [hpost, exceptFMap, exceptMap_ok, exceptMap_error, exceptBind_ok, exceptBind_error, exceptBindF_ok, exceptBindF_error, exceptPure]
              | error e =>
                simp [hpost, exceptFMap, exceptMap_ok, exceptMap_error, exceptBind_ok, exceptBind_error, exceptBindF_ok, exceptBindF_error, exceptPure]
          | error e => simp [exceptBind_error, exceptBindF_error, exceptMap_error]
      | error e => simp [exceptBind_error, exceptBindF_error]
    · simp only [Bool.not_eq_true] at htn
      simp only [htn, Bool.not_false, if_pos rfl]
      rw [ih post st]
      cases hpre : execute_plan extractDf now freshId duration reg tools st pre with
      | ok rsp =>
        cases rsp with
        | mk resultsPre st2 =>
          simp only [exceptBind_ok]
          cases hpost : execute_plan extractDf now freshId duration reg tools st2 post with
          | ok rsq =>
            cases rsq with
            | mk resultsPost st3 =>
              simp [hpost, exceptFMap, exceptMap_ok, exceptMap_error, exceptBind_ok, exceptBind_error, exceptBindF_ok, exceptBindF_error, exceptPure]
          | error e =>
            simp [hpost, exceptFMap, exceptMap_ok, exceptMap_error, exceptBind_ok, exceptBind_error, exceptBindF_ok, exceptBindF_error, exceptPure]
      | error e => simp [exceptBind_error, exceptBindF_error, exceptMap_error]

/-- C2 counterexample: `execute_plan` can raise.  A plan entry whose `args`
value is the number `5` reaches `req_arg not in args` inside
`ToolRegistry.validate_tool_call`, which raises `TypeError` out of
`execute_plan` — the entry never yields a result dict.  Likewise an entry
with dict-shaped `args` but a truthy dict tool value raises `TypeError`
at the allow-list membership probe `tool_name in self._tools`. -/
theorem C2_counterexample :
    (execute_plan (fun _ => none) 0 "run-1" 1 defaultRegistry [] freshLedgerMgr
      [[("tool", .str "flight_search"), ("args", .num 5)]] =
      .error "TypeError: argument of type 'int' is not iterable") ∧
    (execute_plan (fun _ => none) 0 "run-1" 1 defaultRegistry [] freshLedgerMgr
      [[("tool", .dict [("a", .num 1)]),
        ("args", .dict [("query", .str "SFO to NYC")])]] =
      .error "TypeError: unhashable type: 'dict'") := by
  exact ⟨rfl, rfl⟩

/-- C2 (amended): `execute_tool_call` on dict-shaped arguments never raises —
for every registry, tool table, reachable manager state, tool name and
argument dict (covering registry validation failure, an unregistered tool,
and a tool raising) it returns a result with success/result/error fields
(success exactly when no error) and appends exactly one trace; and
`execute_plan` never raises and returns exactly one result per plan entry
provided every entry's effective `args` value is a dict and every entry's
effective tool value is hashable (not a dict or list — an unhashable truthy
tool value raises `TypeError` at the allow-list membership probe),
executing strictly in plan order (splitting a plan executes the prefix
first and concatenates the results in order). -/
theorem C2_runner_never_raises (extractDf : String → Option (List Value))
    (now : Nat) (freshId : String) (duration : ℚ) (reg : ToolRegistry)
    (tools : List (String × (Value → Except String Value))) :
    (∀ (st : LedgerMgr), reachableMgr st → ∀ (tool_name : String)
      (kvs : List (String × Value)),
      ∃ r st' tr, execute_tool_call extractDf now freshId duration reg tools st tool_name
          (.dict kvs) = .ok (r, st') ∧
        st'.traces = st.traces ++ [tr] ∧ (r.success = true ↔ r.error = none) ∧
        st'.ledger.isSome = true) ∧
    (∀ (tool_calls : List (List (String × Value))) (st : LedgerMgr), reachableMgr st →
      tool_calls.all argsOk = true → tool_calls.all toolNameOk = true →
      ∃ results st', execute_plan extractDf now freshId duration reg tools st tool_calls =
          .ok (results, st') ∧ results.length = tool_calls.length) ∧
    (∀ (pre post : List (List (String × Value))) (st : LedgerMgr),
      execute_plan extractDf now freshId duration reg tools st (pre ++ post) =
        (execute_plan extractDf now freshId duration reg tools st pre).bind
          (fun rs1 => (execute_plan extractDf now freshId duration reg tools rs1.2 post).map
            (fun rs2 => (rs1.1 ++ rs2.1, rs2.2)))) :=
  ⟨fun st hre tool_name kvs =>
      execute_tool_call_ok extractDf now freshId duration reg tools st hre tool_name kvs,
   fun tool_calls st hre hok htok =>
      execute_plan_ok extractDf now freshId duration reg tools tool_calls st hre hok htok,
   execute_plan_append extractDf now freshId duration reg tools⟩

/-- C2 witness: a one-entry plan with a dict `args` value and a string tool
name executes to one result on the fresh manager. -/
theorem C2_runner_never_raises_witness :
    reachableMgr freshLedgerMgr ∧
    ([[("tool", Value.str "flight_search"),
       ("args", Value.dict [("query", Value.str "SFO to NYC")])]].all argsOk = true) ∧
    ([[("tool", Value.str "flight_search"),
       ("args", Value.dict [("query", Value.str "SFO to NYC")])]].all toolNameOk
        = true) ∧
    (∃ results st',
      execute_plan (fun _ => none) 0 "run-1" 1 defaultRegistry [] freshLedgerMgr
        [[("tool", Value.str "flight_search"),
          ("args", Value.dict [("query", Value.str "SFO to NYC")])]] =
        .ok (results, st') ∧
      results.length = [[("tool", Value.str "flight_search"),
          ("args", Value.dict [("query", Value.str "SFO to NYC")])]].length) :=
  ⟨Or.inr rfl, by decide, by decide,
   (C2_runner_never_raises (fun _ => none) 0 "run-1" 1 defaultRegistry []).2.1
     [[("tool", Value.str "flight_search"),
       ("args", Value.dict [("query", Value.str "SFO to NYC")])]]
     freshLedgerMgr (Or.inr rfl) (by decide) (by decide)⟩

/-! ### Isolator (infrastructure/isolator.py)

`_global_state` is one lock-protected dict shared by all threads (the lock
serializes access; this sequential model interleaves explicitly, so the lock
has no further content).  `_local_state` is `threading.local()`: each thread
sees its own `state` attribute, so it is modelled as a map from thread id to
that thread's dict, with presence in the map standing for
`hasattr(self._local_state, 'state')` on the calling thread.  Every
operation takes the id of the calling thread. -/

/-- Generic dict assignment on an association list. -/
def setVal (k : String) (v : Value) : List (String × Value) → List (String × Value)
  | [] => [(k, v)]
  | (k2, v2) :: rest => if k2 == k then (k, v) :: rest else (k2, v2) :: setVal k v rest

structure IsolatorState where
  global_state : List (String × Value)
  local_state : List (Nat × List (String × Value))

/-- A freshly constructed isolator. -/
def freshIsolator : IsolatorState :=
  { global_state := [], local_state := [] }

/-- The calling thread's `state` dict, when the attribute exists. -/
def threadState (tid : Nat) (st : IsolatorState) : Option (List (String × Value)) :=
  match st.local_state.find? (fun kv => kv.1 == tid) with
  | some kv => some kv.2
  | none => none

/-- Replace (or create) the calling thread's `state` dict. -/
def setThreadState (tid : Nat) (m : List (String × Value)) :
    List (Nat × List (String × Value)) → List (Nat × List (String × Value))
  | [] => [(tid, m)]
  | (t2, m2) :: rest =>
    if t2 == tid then (tid, m) :: rest else (t2, m2) :: setThreadState tid m rest

/-- `Isolator.reset`, called from thread `tid`: clear the shared global dict;
then clear the thread-local `state` — but only the attribute visible to the
calling thread, and only if that thread has one. -/
def iso_reset (tid : Nat) (st : IsolatorState) : IsolatorState :=
  { global_state := [],
    local_state :=
      match threadState tid st with
      | some _ => setThreadState tid [] st.local_state
      | none => st.local_state }

/-- `Isolator.set_global`. -/
def set_global (key : String) (value : Value) (st : IsolatorState) : IsolatorState :=
  { st with global_state := setVal key value st.global_state }

/-- `Isolator.get_global`. -/
def get_global (key : String) (default : Value) (st : IsolatorState) : Value :=
  match st.global_state.find? (fun kv => kv.1 == key) with
  | some kv => kv.2
  | none => default

/-- `Isolator.set_local`, called from thread `tid`. -/
def set_local (tid : Nat) (key : String) (value : Value) (st : IsolatorState) :
    IsolatorState :=
  let m := (threadState tid st).getD []
  { st with local_state := setThreadState tid (setVal key value m) st.local_state }

/-- `Isolator.get_local`, called from thread `tid`. -/
def get_local (tid : Nat) (key : String) (default : Value) (st : IsolatorState) : Value :=
  match threadState tid st with
  | none => default
  | some m =>
    match m.find? (fun kv => kv.1 == key) with
    | some kv => kv.2
    | none => default

/-- C8: `reset()` does clear the shared global store for every thread, but it
clears only the *calling thread's* local store: a key set by thread 1 is
still observable by thread 1 after thread 2 calls `reset()` (while the same
scenario with thread 1 resetting clears it).  This contradicts the claim
that a previously set thread-local key reads as the default "regardless of
which thread set it or which thread calls reset()". -/
theorem C8_reset_leaks_other_thread_local :
    (get_global "g" .null
      (iso_reset 2 (set_global "g" (.str "w")
        (set_local 1 "k" (.str "v") freshIsolator))) = .null) ∧
    (get_local 1 "k" .null
      (iso_reset 2 (set_global "g" (.str "w")
        (set_local 1 "k" (.str "v") freshIsolator))) = .str "v") ∧
    (get_local 1 "k" .null
      (iso_reset 1 (set_global "g" (.str "w")
        (set_local 1 "k" (.str "v") freshIsolator))) = .null) := by
  refine ⟨rfl, rfl, rfl⟩

/-! ### NDCG scorer (scoring/ndcg_scorer.py)

`math.log2` returns floats; it enters the score only through the discount
factor applied to each position, so it is modeled as an arbitrary function
`lg : ℚ → ℚ` applied to the rational argument `position + 1`.  The relevance
dictionary `relevance_scores` is an association list with distinct keys;
`.get(item_id, 0.0)` is a key lookup defaulting to `0`.  Python's
`sorted(relevance_scores.items(), key=lambda x: x[1], reverse=True)` is the
stable descending sort on the second component, i.e. `List.insertionSort`
with the relation `a.2 ≥ b.2` (an element is inserted before the first
element it is `≥`, so earlier-listed items precede later equal-valued ones,
exactly as Python's stable sort). -/

def lookupRel (relevance_scores : List (String × ℚ)) (item_id : String) : ℚ :=
  match relevance_scores.find? (fun p => p.1 == item_id) with
  | some p => p.2
  | none => 0

def dcgGo (lg : ℚ → ℚ) (relevance_scores : List (String × ℚ)) :
    Nat → ℚ → List String → ℚ
  | _, dcg, [] => dcg
  | i, dcg, item_id :: rest =>
    dcgGo lg relevance_scores (i + 1)
      (dcg + lookupRel relevance_scores item_id / lg ((i : ℚ) + 1 + 1)) rest

def calculate_dcg (lg : ℚ → ℚ) (relevance_scores : List (String × ℚ))
    (ranking : List String) : ℚ :=
  dcgGo lg relevance_scores 0 0 ranking

def ideal_ids (relevance_scores : List (String × ℚ)) (k : Nat) : List String :=
  ((List.insertionSort (fun a b => a.2 ≥ b.2) relevance_scores).take k).map Prod.fst

def idcgVal (lg : ℚ → ℚ) (relevance_scores : List (String × ℚ)) (k : Nat) : ℚ :=
  calculate_dcg lg relevance_scores (ideal_ids relevance_scores k)

def calculate_ndcg_at_k (lg : ℚ → ℚ) (predicted_ranking : List String)
    (relevance_scores : List (String × ℚ)) (k : Nat) : ℚ :=
  let dcg := calculate_dcg lg relevance_scores (predicted_ranking.take k)
  let idcg := idcgVal lg relevance_scores k
  if idcg = 0 then 0 else dcg / idcg

/-- The DCG accumulator depends on the ranking only through the looked-up
relevance values, position by position. -/
def dcgValsGo (lg : ℚ → ℚ) : Nat → ℚ → List ℚ → ℚ
  | _, dcg, [] => dcg
  | i, dcg, v :: rest => dcgValsGo lg (i + 1) (dcg + v / lg ((i : ℚ) + 1 + 1)) rest

lemma dcgGo_eq_vals (lg : ℚ → ℚ) (rel : List (String × ℚ)) :
    ∀ (l : List String) (i : Nat) (acc : ℚ),
      dcgGo lg rel i acc l = dcgValsGo lg i acc (l.map (lookupRel rel))
  | [], _, _ => rfl
  | _ :: rest, i, acc => by
    simp only [dcgGo, dcgValsGo, List.map]
    exact dcgGo_eq_vals lg rel rest (i + 1) _

lemma lookupRel_mem :
    ∀ (rel : List (String × ℚ)), (rel.map Prod.fst).Nodup →
      ∀ p ∈ rel, lookupRel rel p.1 = p.2
  | [], _, p, hp => absurd hp (List.not_mem_nil p)
  | q :: rest, hnd, p, hp => by
    have hnd' : ¬ q.1 ∈ rest.map Prod.fst ∧ (rest.map Prod.fst).Nodup := by
      rw [List.map_cons, List.nodup_cons] at hnd
      exact hnd
    rcases List.mem_cons.1 hp with h | h
    · subst h
      simp [lookupRel, List.find?]
    · have hne : ¬ q.1 = p.1 :=
        fun he => hnd'.1 (he ▸ List.mem_map_of_mem Prod.fst h)
      have hbeq : (q.1 == p.1) = false := beq_eq_false_iff_ne.2 hne
      have hrec := lookupRel_mem rest hnd'.2 p h
      simpa [lookupRel, List.find?, hbeq] using hrec

/-- C5: `calculate_ndcg_at_k` boundary behavior.  (a) If the predicted
ranking ranks exactly the keys of the relevance dictionary (distinct keys)
in descending relevance order — i.e. it is an ideal ranking — and the ideal
DCG at cutoff `k` is nonzero, the score is exactly `1`.  (b) Whenever the
ideal DCG is `0` the score is defined to be `0` (no division by zero).
(c) In particular, for an empty relevance map the score is `0`. -/
theorem C5_ndcg_boundaries (lg : ℚ → ℚ) (relevance_scores : List (String × ℚ))
    (predicted_ranking : List String) (k : Nat) :
    ((relevance_scores.map Prod.fst).Nodup →
      predicted_ranking.Perm (relevance_scores.map Prod.fst) →
      (predicted_ranking.map (lookupRel relevance_scores)).Sorted (· ≥ ·) →
      idcgVal lg relevance_scores k ≠ 0 →
      calculate_ndcg_at_k lg predicted_ranking relevance_scores k = 1) ∧
    (idcgVal lg relevance_scores k = 0 →
      calculate_ndcg_at_k lg predicted_ranking relevance_scores k = 0) ∧
    calculate_ndcg_at_k lg predicted_ranking [] k = 0 := by
  refine ⟨?_, ?_, ?_⟩
  · intro hnd hperm hsorted hidcg
    have hperm_sorted :
        (List.insertionSort (fun a b : String × ℚ => a.2 ≥ b.2)
          relevance_scores).Perm relevance_scores :=
      List.perm_insertionSort _ _
    haveI htot : IsTotal (String × ℚ) (fun a b => a.2 ≥ b.2) :=
      ⟨fun a b => le_total b.2 a.2⟩
    haveI htrans : IsTrans (String × ℚ) (fun a b => a.2 ≥ b.2) :=
      ⟨fun _ _ _ h1 h2 => le_trans h2 h1⟩
    have hsortedI :
        List.Sorted (fun a b : String × ℚ => a.2 ≥ b.2)
          (List.insertionSort (fun a b => a.2 ≥ b.2) relevance_scores) :=
      List.sorted_insertionSort _ _
    have hlk := lookupRel_mem relevance_scores hnd
    have hmap_sorted :
        (List.insertionSort (fun a b : String × ℚ => a.2 ≥ b.2)
            relevance_scores).map (fun p => lookupRel relevance_scores p.1)
          = (List.insertionSort (fun a b : String × ℚ => a.2 ≥ b.2)
            relevance_scores).map Prod.snd :=
      List.map_congr_left (fun p hp => hlk p (hperm_sorted.mem_iff.1 hp))
    have hvals_ideal_sorted :
        List.Sorted (· ≥ ·)
          ((List.insertionSort (fun a b : String × ℚ => a.2 ≥ b.2)
            relevance_scores).map Prod.snd) := by
      rw [List.Sorted, List.pairwise_map]
      exact hsortedI
    have hvals_perm :
        (predicted_ranking.map (lookupRel relevance_scores)).Perm
          ((List.insertionSort (fun a b : String × ℚ => a.2 ≥ b.2)
            relevance_scores).map Prod.snd) := by
      have h1 : (predicted_ranking.map (lookupRel relevance_scores)).Perm
          ((relevance_scores.map Prod.fst).map (lookupRel relevance_scores)) :=
        hperm.map _
      have h2 : (relevance_scores.map Prod.fst).map (lookupRel relevance_scores)
          = relevance_scores.map Prod.snd := by
        rw [List.map_map]
        exact List.map_congr_left (fun p hp => hlk p hp)
      have h3 : (relevance_scores.map Prod.snd).Perm
          ((List.insertionSort (fun a b : String × ℚ => a.2 ≥ b.2)
            relevance_scores).map Prod.snd) :=
        (hperm_sorted.map Prod.snd).symm
      rw [h2] at h1
      exact h1.trans h3
    haveI : IsAntisymm ℚ (· ≥ ·) := ⟨fun a b h1 h2 => le_antisymm h2 h1⟩
    have hva : predicted_ranking.map (lookupRel relevance_scores)
        = (List.insertionSort (fun a b : String × ℚ => a.2 ≥ b.2)
            relevance_scores).map Prod.snd :=
      List.eq_of_perm_of_sorted hvals_perm hsorted hvals_ideal_sorted
    have hdcg : calculate_dcg lg relevance_scores (predicted_ranking.take k)
        = idcgVal lg relevance_scores k := by
      rw [calculate_dcg, dcgGo_eq_vals, List.map_take, hva]
      rw [idcgVal, calculate_dcg, dcgGo_eq_vals, ideal_ids, List.map_map,
        List.map_take]
      rw [show (List.insertionSort (fun a b : String × ℚ => a.2 ≥ b.2)
            relevance_scores).map (lookupRel relevance_scores ∘ Prod.fst)
          = (List.insertionSort (fun a b : String × ℚ => a.2 ≥ b.2)
            relevance_scores).map Prod.snd from
        List.map_congr_left (fun p hp => hlk p (hperm_sorted.mem_iff.1 hp))]
    show (if idcgVal lg relevance_scores k = 0 then (0 : ℚ)
      else calculate_dcg lg relevance_scores (predicted_ranking.take k) /
        idcgVal lg relevance_scores k) = 1
    rw [if_neg hidcg, hdcg]
    exact div_self hidcg
  · intro h
    show (if idcgVal lg relevance_scores k = 0 then (0 : ℚ)
      else calculate_dcg lg relevance_scores (predicted_ranking.take k) /
        idcgVal lg relevance_scores k) = 0
    rw [if_pos h]
  · show (if idcgVal lg [] k = 0 then (0 : ℚ)
      else calculate_dcg lg [] (predicted_ranking.take k) / idcgVal lg [] k) = 0
    have h0 : idcgVal lg [] k = 0 := by
      simp [idcgVal, ideal_ids, calculate_dcg, List.insertionSort, dcgGo]
    rw [if_pos h0]

/-! ### Grounding validator (scoring/grounding_validator.py)

A claim extracted by `extract_claims` is a record of `field`, `value`,
`type` and `context` (the latter a dict, modeled by its entry list).
`_compare_numbers` and the contradiction threshold use exact rationals for
the float literals `0.01`, `0.05`, `0.1`, `0.2`, `0.5`.  Paths on which the
Python code would raise are modeled as `Except.error`:

* a `'number'` claim whose value is not a number reaches
  `abs(claim_value - value)` → `TypeError`;
* the explicit-reference branch of `_check_claim_grounding` returns
  `self._compare_values(...)`, which for a `'number'` claim is the 2-tuple
  produced by `_compare_numbers`; the caller in `validate_grounding` unpacks
  three components → `ValueError`.

`hasattr(trace, 'id')` is `False` (`ToolCallTrace` has no `id` field), so
the reference comparison reduces to `str(trace.run_id) == str(reference_id)`. -/

structure GClaim where
  field : String
  value : Value
  ctype : String
  context : List (String × Value)

/-- Python truthiness of an optional contradiction value
(`elif contradiction:` / `if contradiction:`). -/
def contrTruthy : Option Value → Bool
  | some v => v.truthy
  | none => false

/-- `_compare_numbers(claim, tool, tolerance=0.01)`. -/
def compare_numbers (claim tool : ℚ) : Bool × Option String :=
  if |claim - tool| < 1/100 then (true, some "exact")
  else if |claim - tool| / max (max |claim| |tool|) 1 < 1/20 then (true, some "close")
  else (false, none)

mutual

/-- `_search_in_result`: dispatch on the shape of the tool result.  The
string case checks the one-directional substring
`str(claim_value).lower() in str(result).lower()` for address/datetime
claims only. -/
def searchInResult (claim_value : Value) (claim_type : String) :
    Value → Except String (Bool × Option String × Option Value)
  | .dict entries => searchInDict claim_value claim_type entries
  | .list items => searchInList claim_value claim_type items
  | .str s =>
    if (claim_type == "address" || claim_type == "datetime") &&
        hasSub (asciiLower (pyStr claim_value)).data (asciiLower s).data then
      .ok (true, some "partial", none)
    else .ok (false, none, none)
  | _ => .ok (false, none, none)

/-- The list loop of `_search_in_result`.  On a truthy contradiction from an
item it returns `(True, None, contradiction)` — `is_match = True` — which
the callers (`_check_claim_grounding`, `_search_in_dict`) treat as a plain
match, discarding the contradiction. -/
def searchInList (claim_value : Value) (claim_type : String) :
    List Value → Except String (Bool × Option String × Option Value)
  | [] => .ok (false, none, none)
  | item :: rest =>
    match searchInResult claim_value claim_type item with
    | .error e => .error e
    | .ok (is_match, match_type, contradiction) =>
      if is_match then .ok (true, match_type, none)
      else if contrTruthy contradiction then .ok (true, none, contradiction)
      else searchInList claim_value claim_type rest

/-- `_search_in_dict`: scan the entries in order.  A numeric value either
matches, or — when it differs by more than 10% of the larger magnitude —
makes the whole scan return the contradiction immediately; otherwise the
scan continues.  Nested dicts/lists go through `_search_in_result`, whose
dict/list dispatch is inlined here. -/
def searchInDict (claim_value : Value) (claim_type : String) :
    List (String × Value) → Except String (Bool × Option String × Option Value)
  | [] => .ok (false, none, none)
  | (_, value) :: rest =>
    match value with
    | .num v =>
      if claim_type == "number" then
        match claim_value with
        | .num c =>
          let cmp := compare_numbers c v
          if cmp.1 then .ok (true, cmp.2, none)
          else if |c - v| > max |c| |v| * (1/10) then .ok (false, none, some (.num v))
          else searchInDict claim_value claim_type rest
        | _ => .error "TypeError: unsupported operand type(s) for -"
      else searchInDict claim_value claim_type rest
    | .str s =>
      if (claim_type == "address" || claim_type == "datetime") &&
          (hasSub (asciiLower (pyStr claim_value)).data (asciiLower s).data ||
           hasSub (asciiLower s).data (asciiLower (pyStr claim_value)).data) then
        .ok (true, some "partial", none)
      else searchInDict claim_value claim_type rest
    | .dict d =>
      match searchInDict claim_value claim_type d with
      | .error e => .error e
      | .ok (is_match, match_type, contradiction) =>
        if is_match then .ok (true, match_type, none)
        else if contrTruthy contradiction then .ok (false, none, contradiction)
        else searchInDict claim_value claim_type rest
    | .list items =>
      match searchInList claim_value claim_type items with
      | .error e => .error e
      | .ok (is_match, match_type, contradiction) =>
        if is_match then .ok (true, match_type, none)
        else if contrTruthy contradiction then .ok (false, none, contradiction)
        else searchInDict claim_value claim_type rest
    | .null => searchInDict claim_value claim_type rest

end

/-- `_compare_values`, composed with the 3-way unpacking at its only call
site (`is_grounded, match_type, contradiction = …`): the number branch
returns the 2-tuple of `_compare_numbers`, so the unpacking raises
`ValueError`. -/
def compare_values (claim_value tool_value : Value) (claim_type : String) :
    Except String (Bool × Option String × Option Value) :=
  if claim_type == "number" then
    .error "ValueError: not enough values to unpack (expected 3, got 2)"
  else if claim_type == "address" || claim_type == "datetime" then
    match tool_value with
    | .str s =>
      .ok (hasSub (asciiLower (pyStr claim_value)).data (asciiLower s).data,
        some "partial", none)
    | _ => .ok (false, none, none)
  else if Value.beq claim_value tool_value then .ok (true, some "exact", none)
  else .ok (false, none, none)

/-- The reference loop of `_check_claim_grounding`: the first trace with
`str(trace.run_id) == str(reference_id)` (the `hasattr(trace, 'id')`
disjunct is always false). -/
def findRefTrace (reference_id : Value) : List ToolCallTrace → Option ToolCallTrace
  | [] => none
  | t :: ts =>
    if t.run_id == pyStr reference_id then some t
    else findRefTrace reference_id ts

/-- The trace scan of `_check_claim_grounding`: skip `None` return values;
a match ends the scan grounded (dropping any contradiction piggybacked on
`is_match = True`); a truthy contradiction ends it contradicted. -/
def scanTraces (claim_value : Value) (claim_type : String) :
    List ToolCallTrace → Except String (Bool × Option String × Option Value)
  | [] => .ok (false, none, none)
  | t :: ts =>
    match t.return_value with
    | .null => scanTraces claim_value claim_type ts
    | rv =>
      match searchInResult claim_value claim_type rv with
      | .error e => .error e
      | .ok (is_match, match_type, contradiction) =>
        if is_match then .ok (true, match_type, none)
        else if contrTruthy contradiction then .ok (false, none, contradiction)
        else scanTraces claim_value claim_type ts

/-- `_check_claim_grounding`: the explicit-reference branch (when the
context has one of the three reference keys, the `or`-chain over
`tool_reference`/`reference_id` is truthy, and some trace matches it),
falling through to the general trace scan otherwise. -/
def check_claim_grounding (claim : GClaim) (traces : List ToolCallTrace) :
    Except String (Bool × Option String × Option Value) :=
  let context := claim.context
  let refTrace :=
    if dictHas context "tool_reference" || dictHas context "reference_id" ||
        dictHas context "citation" then
      let reference_id := pyOr (dictGet context "tool_reference")
        (dictGet context "reference_id")
      if reference_id.truthy then findRefTrace reference_id traces else none
    else none
  match refTrace with
  | some t => compare_values claim.value t.return_value claim.ctype
  | none => scanTraces claim.value claim.ctype traces

/-- The mutable `results` dict of `validate_grounding`. -/
structure GroundResults where
  total_claims : Nat
  grounded_claims : Nat
  ungrounded_claims : List (String × Value)
  contradicted_claims : List (String × Value × Value)
  exact_matches : Nat
  score : ℚ

/-- The claim loop of `validate_grounding`, accumulating the counters and
the ungrounded/contradicted entries in claim order. -/
def groundFold (traces : List ToolCallTrace) :
    List GClaim → Nat → List (String × Value) → List (String × Value × Value) →
    Nat → Except String (Nat × List (String × Value) ×
      List (String × Value × Value) × Nat)
  | [], g, ug, cd, ex => .ok (g, ug, cd, ex)
  | claim :: rest, g, ug, cd, ex =>
    match check_claim_grounding claim traces with
    | .error e => .error e
    | .ok (is_grounded, match_type, contradiction) =>
      let g' := if is_grounded then g + 1 else g
      let ex' := if is_grounded && match_type == some "exact" then ex + 1 else ex
      let ug' := if is_grounded then ug else ug ++ [(claim.field, claim.value)]
      let cd' := if contrTruthy contradiction then
          cd ++ [(claim.field, claim.value, contradiction.getD .null)]
        else cd
      groundFold traces rest g' ug' cd' ex'

/-- `validate_grounding`: run the claim loop, then set
`score = max(0.0, min(1.0, grounded_ratio + exact_bonus −
contradiction_penalty))` when there is at least one claim (the initial
`score` of `0.0` stands otherwise). -/
def validate_grounding (traces : List ToolCallTrace) (claims : List GClaim) :
    Except String GroundResults :=
  match groundFold traces claims 0 [] [] 0 with
  | .error e => .error e
  | .ok (g, ug, cd, ex) =>
    let total := claims.length
    let score : ℚ :=
      if 0 < total then
        max 0 (min 1 ((g : ℚ) / (total : ℚ) + ((ex : ℚ) / (total : ℚ)) * (1/5)
          - ((cd.length : ℚ) / (total : ℚ)) * (1/2)))
      else 0
    .ok ⟨total, g, ug, cd, ex, score⟩

/-- C1: the dict branch of `_search_in_dict` does flag a materially
different numeric value as a contradiction (claim ungrounded, score
penalized to `0`), but wrapping the very same tool result in a one-element
list — the usual shape of a search tool's return value — hits the list
branch of `_search_in_result`, which returns `is_match = True` next to the
contradiction; `_check_claim_grounding` then reports the claim *grounded*
and discards the contradiction, so `grounded_claims = 1`,
`contradicted_claims = []` and `score = 1.0` for the identical
`price = 100` vs `price = 250` conflict. -/
theorem C1_list_contradiction_swallowed :
    (validate_grounding
        [⟨0, "run-1", "hotel_search", .dict [], .dict [("price", .num 250)],
          none, none, none, none⟩]
        [⟨"hotels[0].price", .num 100, "number", [("price", .num 100)]⟩]
      = .ok ⟨1, 0, [("hotels[0].price", .num 100)],
          [("hotels[0].price", .num 100, .num 250)], 0, 0⟩) ∧
    (validate_grounding
        [⟨0, "run-1", "hotel_search", .dict [],
          .list [.dict [("price", .num 250)]], none, none, none, none⟩]
        [⟨"hotels[0].price", .num 100, "number", [("price", .num 100)]⟩]
      = .ok ⟨1, 1, [], [], 0, 1⟩) := by
  have hctx : (dictHas [("price", Value.num 100)] "tool_reference" ||
      dictHas [("price", Value.num 100)] "reference_id" ||
      dictHas [("price", Value.num 100)] "citation") = false := by decide
  have hcmp : compare_numbers 100 250 = (false, none) := by
    rw [compare_numbers]
    norm_num
  have hdict : searchInDict (.num 100) "number" [("price", .num 250)]
      = .ok (false, none, some (.num 250)) := by
    rw [searchInDict, hcmp]
    norm_num
  have hct : contrTruthy (some (Value.num 250)) = true := by decide
  have hlist : searchInList (.num 100) "number" [.dict [("price", .num 250)]]
      = .ok (true, none, some (.num 250)) := by
    rw [searchInList, searchInResult, hdict]
    simp [hct]
  constructor
  · have hchk : check_claim_grounding
        ⟨"hotels[0].price", .num 100, "number", [("price", .num 100)]⟩
        [⟨0, "run-1", "hotel_search", .dict [], .dict [("price", .num 250)],
          none, none, none, none⟩]
        = .ok (false, none, some (.num 250)) := by
      rw [check_claim_grounding]
      simp only [hctx, Bool.false_eq_true, if_false, scanTraces, searchInResult,
        hdict, hct]
      simp
    have hfold : groundFold
        [⟨0, "run-1", "hotel_search", .dict [], .dict [("price", .num 250)],
          none, none, none, none⟩]
        [⟨"hotels[0].price", .num 100, "number", [("price", .num 100)]⟩]
        0 [] [] 0
        = .ok (0, [("hotels[0].price", Value.num 100)],
            [("hotels[0].price", Value.num 100, Value.num 250)], 0) := by
      rw [groundFold, hchk]
      simp [hct, groundFold]
    rw [validate_grounding, hfold]
    norm_num
  · have hchk : check_claim_grounding
        ⟨"hotels[0].price", .num 100, "number", [("price", .num 100)]⟩
        [⟨0, "run-1", "hotel_search", .dict [],
          .list [.dict [("price", .num 250)]], none, none, none, none⟩]
        = .ok (true, none, none) := by
      rw [check_claim_grounding]
      simp only [hctx, Bool.false_eq_true, if_false, scanTraces, searchInResult,
        hlist]
      simp
    have hfold : groundFold
        [⟨0, "run-1", "hotel_search", .dict [],
          .list [.dict [("price", .num 250)]], none, none, none, none⟩]
        [⟨"hotels[0].price", .num 100, "number", [("price", .num 100)]⟩]
        0 [] [] 0
        = .ok (1, [], [], 0) := by
      rw [groundFold, hchk]
      simp [contrTruthy, groundFold]
    rw [validate_grounding, hfold]
    norm_num

theorem C5_ndcg_boundaries_witness :
    calculate_ndcg_at_k (fun _ => 1) ["A", "B", "C"]
      [("A", 1), ("B", 0), ("C", 0)] 3 = 1 :=
  (C5_ndcg_boundaries (fun _ => 1) [("A", 1), ("B", 0), ("C", 0)]
      ["A", "B", "C"] 3).1
    (by decide) (by decide) (by decide)
    (by
      have h : ideal_ids [("A", 1), ("B", 0), ("C", 0)] 3 = ["A", "B", "C"] := by
        decide
      have hA : lookupRel [("A", 1), ("B", 0), ("C", 0)] "A" = 1 := by decide
      have hB : lookupRel [("A", 1), ("B", 0), ("C", 0)] "B" = 0 := by decide
      have hC : lookupRel [("A", 1), ("B", 0), ("C", 0)] "C" = 0 := by decide
      norm_num [idcgVal, h, calculate_dcg, dcgGo, hA, hB, hC])

/-! ### Plan validator (validation/plan_validator.py)

`json.loads` is embedded for the JSON subset the plan claims touch:
objects, arrays, double-quoted strings without backslash escapes, integers,
and `null`, with JSON whitespace.  (`true`/`false`, floats and string
escapes are outside the subset and parse as errors; no claim input contains
them.)  The parser is fuel-indexed (fuel `length + 1` always suffices:
every recursive call follows the consumption of at least one character). -/

/-- JSON whitespace (`json.loads` inter-token whitespace). -/
def jsonWs (c : Char) : Bool :=
  c == ' ' || c == '\t' || c == '\n' || c == '\r'

def skipWs (l : List Char) : List Char :=
  l.dropWhile jsonWs

/-- A JSON string body up to the closing quote (no escape sequences). -/
def jsonStrBody : List Char → Option (String × List Char)
  | [] => none
  | '"' :: rest => some ("", rest)
  | '\\' :: _ => none
  | c :: rest =>
    match jsonStrBody rest with
    | some (s, r) => some (⟨c :: s.data⟩, r)
    | none => none

def digitsToNatGo (acc : Nat) : List Char → Nat
  | [] => acc
  | c :: rest => digitsToNatGo (acc * 10 + (c.toNat - '0'.toNat)) rest

def digitsToNat (l : List Char) : Nat :=
  digitsToNatGo 0 l

/-- A JSON integer (optional minus sign, one or more digits). -/
def jsonNumOpt : List Char → Option (Value × List Char)
  | '-' :: rest =>
    if (rest.takeWhile isDigitChar).isEmpty then none
    else some (.num (-(digitsToNat (rest.takeWhile isDigitChar) : ℚ)),
      rest.dropWhile isDigitChar)
  | l =>
    if (l.takeWhile isDigitChar).isEmpty then none
    else some (.num (digitsToNat (l.takeWhile isDigitChar) : ℚ),
      l.dropWhile isDigitChar)

mutual

def jsonVal (fuel : Nat) (l : List Char) : Option (Value × List Char) :=
  match fuel with
  | 0 => none
  | fuel + 1 =>
    match skipWs l with
    | '"' :: rest =>
      match jsonStrBody rest with
      | some (s, r) => some (.str s, r)
      | none => none
    | '[' :: rest =>
      match skipWs rest with
      | ']' :: r => some (.list [], r)
      | _ => jsonItems fuel rest []
    | '{' :: rest =>
      match skipWs rest with
      | '}' :: r => some (.dict [], r)
      | _ => jsonMembers fuel rest []
    | 'n' :: 'u' :: 'l' :: 'l' :: rest => some (.null, rest)
    | other => jsonNumOpt other

def jsonItems (fuel : Nat) (l : List Char) (acc : List Value) :
    Option (Value × List Char) :=
  match fuel with
  | 0 => none
  | fuel + 1 =>
    match jsonVal fuel l with
    | none => none
    | some (v, r) =>
      match skipWs r with
      | ',' :: r2 => jsonItems fuel r2 (acc ++ [v])
      | ']' :: r2 => some (.list (acc ++ [v]), r2)
      | _ => none

def jsonMembers (fuel : Nat) (l : List Char) (acc : List (String × Value)) :
    Option (Value × List Char) :=
  match fuel with
  | 0 => none
  | fuel + 1 =>
    match skipWs l with
    | '"' :: rest =>
      match jsonStrBody rest with
      | none => none
      | some (k, r) =>
        match skipWs r with
        | ':' :: r2 =>
          match jsonVal fuel r2 with
          | none => none
          | some (v, r3) =>
            match skipWs r3 with
            | ',' :: r4 => jsonMembers fuel r4 (acc ++ [(k, v)])
            | '}' :: r4 => some (.dict (acc ++ [(k, v)]), r4)
            | _ => none
        | _ => none
    | _ => none

end

/-- `json.loads`: parse one value and require only whitespace to follow. -/
def jsonLoads (s : String) : Option Value :=
  match jsonVal (s.length + 1) s.data with
  | some (v, rest) => if (skipWs rest).isEmpty then some v else none
  | none => none

/-- The tool-call loop of `PlanValidator.validate_plan`: index `i` feeds the
messages, `acc` collects the normalized calls in plan order.  A truthy
non-string `tool` value is never a dict key of the registry, so its
`is_allowed` test fails and it takes the disallowed-tool exit (rendered with
`str`), exactly as Python's `tool_name in self._tools`. -/
def planCallsGo (reg : ToolRegistry) (yr : Nat) (an : Bool) (i : Nat)
    (acc : List Value) : List Value → Bool × Option String × Option (List Value)
  | [] => (true, none, some acc)
  | call :: rest =>
    match call with
    | .dict entries =>
      let tool_name := pyOr (dictGet entries "tool") (dictGet entries "tool_name")
      if !tool_name.truthy then
        (false, some ("Tool call " ++ natDigits i ++
          " missing 'tool' or 'tool_name' field"), none)
      else
        match tool_name with
        | .str tn =>
          if !is_allowed reg tn then
            (false, some ("Tool '" ++ tn ++ "' is not allowed. Allowed tools: " ++
              allowedToolsJoined reg), none)
          else
            match pyOr (pyOr (dictGet entries "args") (dictGet entries "arguments"))
                (.dict []) with
            | .dict argEntries =>
              match validate_tool_call reg tn argEntries with
              | (true, _) =>
                let ncall : Value :=
                  if an then
                    .dict [("tool", .str tn),
                      ("args", normalize_value yr (.dict argEntries))]
                  else .dict [("tool", .str tn), ("args", .dict argEntries)]
                planCallsGo reg yr an (i + 1) (acc ++ [ncall]) rest
              | (false, err) =>
                (false, some ("Tool call " ++ natDigits i ++ " (" ++ tn ++ "): " ++
                  err.getD "None"), none)
            | _ => (false, some ("Tool call " ++ natDigits i ++
                " 'args' must be a dictionary"), none)
        | _ =>
          (false, some ("Tool '" ++ pyStr tool_name ++
            "' is not allowed. Allowed tools: " ++ allowedToolsJoined reg), none)
    | _ => (false, some ("Tool call " ++ natDigits i ++ " must be a dictionary"),
        none)

/-- The shape checks of `validate_plan` after JSON decoding: a non-list is
rejected, an empty list is rejected, otherwise the tool-call loop runs. -/
def validatePlanShape (reg : ToolRegistry) (yr : Nat) (an : Bool) :
    Value → Bool × Option String × Option (List Value)
  | .list [] => (false, some "Plan cannot be empty", none)
  | .list (c :: cs) => planCallsGo reg yr an 0 [] (c :: cs)
  | _ => (false, some "Plan must be a list of tool calls", none)

/-- `PlanValidator.validate_plan`: a string input is parsed as JSON first
(rejecting natural language); everything else goes straight to the shape
checks. -/
def validate_plan (reg : ToolRegistry) (yr : Nat) (an : Bool) (plan : Value) :
    Bool × Option String × Option (List Value) :=
  match plan with
  | .str s =>
    match jsonLoads s with
    | none => (false, some "Plan must be valid JSON, not natural language", none)
    | some parsed => validatePlanShape reg yr an parsed
  | _ => validatePlanShape reg yr an plan

/-- A successful run of the tool-call loop yields no error and exactly one
normalized call per remaining plan entry, appended to `acc`. -/
lemma planCallsGo_success (reg : ToolRegistry) (yr : Nat) (an : Bool) :
    ∀ (calls acc : List Value) (i : Nat) (err : Option String)
      (normp : Option (List Value)),
      planCallsGo reg yr an i acc calls = (true, err, normp) →
      ∃ norm, normp = some norm ∧ err = none ∧
        norm.length = acc.length + calls.length
  | [], acc, i, err, normp, h => by
    simp only [planCallsGo, Prod.mk.injEq] at h
    exact ⟨acc, h.2.2.symm, h.2.1.symm, by simp⟩
  | call :: rest, acc, i, err, normp, h => by
    match call with
    | .null | .num _ | .str _ | .list _ =>
      simp only [planCallsGo, Prod.mk.injEq] at h
      exact absurd h.1 (by simp)
    | .dict entries =>
      simp only [planCallsGo] at h
      by_cases htr : (pyOr (dictGet entries "tool")
          (dictGet entries "tool_name")).truthy
      · rw [if_neg (by simp [htr])] at h
        match htn : pyOr (dictGet entries "tool") (dictGet entries "tool_name")
            with
        | .null | .num _ | .list _ | .dict _ =>
          rw [htn] at h
          simp only [Prod.mk.injEq] at h
          exact absurd h.1 (by simp)
        | .str tn =>
          rw [htn] at h
          dsimp only at h
          by_cases hal : is_allowed reg tn
          · rw [if_neg (by simp [hal])] at h
            match hargs : pyOr (pyOr (dictGet entries "args")
                (dictGet entries "arguments")) (.dict []) with
            | .null | .num _ | .str _ | .list _ =>
              rw [hargs] at h
              simp only [Prod.mk.injEq] at h
              exact absurd h.1 (by simp)
            | .dict argEntries =>
              rw [hargs] at h
              dsimp only at h
              match hv : validate_tool_call reg tn argEntries with
              | (true, e) =>
                rw [hv] at h
                dsimp only at h
                obtain ⟨norm, h1, h2, h3⟩ :=
                  planCallsGo_success reg yr an rest _ (i + 1) err normp h
                refine ⟨norm, h1, h2, ?_⟩
                rw [h3]
                simp [Nat.add_assoc, Nat.add_comm 1 rest.length]
              | (false, e) =>
                rw [hv] at h
                simp only [Prod.mk.injEq] at h
                exact absurd h.1 (by simp)
          · rw [if_pos (by simp [hal])] at h
            simp only [Prod.mk.injEq] at h
            exact absurd h.1 (by simp)
      · rw [if_pos (by simp [htr])] at h
        simp only [Prod.mk.injEq] at h
        exact absurd h.1 (by simp)

/-- C9: `validate_plan` rejects, with its specific message, a non-JSON
string (`"not json"`), a non-list value, an empty plan, a call without
`tool`/`tool_name`, a disallowed tool (message citing the tool and the
allow-list), non-dict `args`, and a call failing registry validation (tool
cited with the registry's reason); the spec's positive example parses,
validates and returns the normalized plan; and a valid result is never
partial: one normalized call per plan entry. -/
theorem C9_plan_validation (yr : Nat) (an : Bool) :
    (validate_plan defaultRegistry yr an (.str "not json")
      = (false, some "Plan must be valid JSON, not natural language", none)) ∧
    (∀ v : Value, (∀ l, v ≠ .list l) → (∀ s, v ≠ .str s) →
      validate_plan defaultRegistry yr an v
        = (false, some "Plan must be a list of tool calls", none)) ∧
    (validate_plan defaultRegistry yr an (.list [])
      = (false, some "Plan cannot be empty", none)) ∧
    (∀ entries : List (String × Value),
      (pyOr (dictGet entries "tool") (dictGet entries "tool_name")).truthy
        = false →
      validate_plan defaultRegistry yr an (.list [.dict entries])
        = (false, some "Tool call 0 missing 'tool' or 'tool_name' field",
          none)) ∧
    (validate_plan defaultRegistry yr an
        (.list [.dict [("tool", .str "unknown_tool"), ("args", .dict [])]])
      = (false, some ("Tool 'unknown_tool' is not allowed. Allowed tools: " ++
          "flight_search, hotel_search, restaurant_search, weather"), none)) ∧
    (validate_plan defaultRegistry yr an
        (.list [.dict [("tool", .str "flight_search"), ("args", .str "q")]])
      = (false, some "Tool call 0 'args' must be a dictionary", none)) ∧
    (validate_plan defaultRegistry yr an
        (.list [.dict [("tool", .str "flight_search")]])
      = (false, some
          "Tool call 0 (flight_search): Missing required argument: query",
        none)) ∧
    (validate_plan defaultRegistry yr true
        (.str "[\x7b\"tool\":\"flight_search\",\"args\":\x7b\"query\":\"SFO to NYC\"\x7d\x7d]")
      = (true, none, some [.dict [("tool", .str "flight_search"),
          ("args", .dict [("query", .str "SFO to NYC")])]])) ∧
    (∀ (l : List Value) (err : Option String) (normp : Option (List Value)),
      validate_plan defaultRegistry yr an (.list l) = (true, err, normp) →
      ∃ norm, normp = some norm ∧ err = none ∧ norm.length = l.length) := by
  refine ⟨rfl, ?_, rfl, ?_, rfl, rfl, rfl, ?_, ?_⟩
  · intro v h1 h2
    match v with
    | .null | .num _ | .dict _ => rfl
    | .list l => exact absurd rfl (h1 l)
    | .str s => exact absurd rfl (h2 s)
  · intro entries h
    show planCallsGo defaultRegistry yr an 0 [] [.dict entries] = _
    simp only [planCallsGo, h]
    rfl
  · have hjson : jsonLoads
        "[\x7b\"tool\":\"flight_search\",\"args\":\x7b\"query\":\"SFO to NYC\"\x7d\x7d]"
        = some (.list [.dict [("tool", .str "flight_search"),
            ("args", .dict [("query", .str "SFO to NYC")])]]) := by rfl
    have hnorm : normalize_value yr (.dict [("query", .str "SFO to NYC")])
        = .dict [("query", .str "SFO to NYC")] := by
      simp [normalize_value, normalizeEntries, normalize_date, normalize_string,
        pyStrip, stripChars, dropSpaces, isSpaceChar, isYMD, monthBranch,
        matchMonthDay, asciiLower, isLowerAlpha, subArrows, subLinks,
        subLinksGo, subBold, subBoldGo, boldMatch, boldInner, isMark, linkMatch,
        monthNum, monthTable, isDigitChar, zfill2, splitOnChar]
    show (match jsonLoads
        "[\x7b\"tool\":\"flight_search\",\"args\":\x7b\"query\":\"SFO to NYC\"\x7d\x7d]" with
      | none => (false, some "Plan must be valid JSON, not natural language",
          none)
      | some parsed => validatePlanShape defaultRegistry yr true parsed)
      = (true, none, some [.dict [("tool", .str "flight_search"),
          ("args", .dict [("query", .str "SFO to NYC")])]])
    rw [hjson]
    show planCallsGo defaultRegistry yr true 0 []
        [.dict [("tool", .str "flight_search"),
          ("args", .dict [("query", .str "SFO to NYC")])]]
      = _
    simp only [planCallsGo, hnorm]
    rfl
  · intro l err normp h
    match l with
    | [] =>
      simp only [validate_plan, validatePlanShape, Prod.mk.injEq] at h
      exact absurd h.1 (by simp)
    | c :: cs =>
      have h' : planCallsGo defaultRegistry yr an 0 [] (c :: cs)
          = (true, err, normp) := h
      obtain ⟨norm, h1, h2, h3⟩ :=
        planCallsGo_success defaultRegistry yr an (c :: cs) [] 0 err normp h'
      exact ⟨norm, h1, h2, by simpa using h3⟩

theorem C9_plan_validation_witness :
    (validate_plan defaultRegistry 2025 false (.num 5)
      = (false, some "Plan must be a list of tool calls", none)) ∧
    (validate_plan defaultRegistry 2025 false (.list [.dict [("note", .str "x")]])
      = (false, some "Tool call 0 missing 'tool' or 'tool_name' field", none)) ∧
    (∃ norm, (some [Value.dict [("tool", Value.str "flight_search"),
        ("args", Value.dict [("query", Value.str "SFO to NYC")])]]
        : Option (List Value)) = some norm ∧
      (none : Option String) = none ∧ norm.length = 1) :=
  ⟨(C9_plan_validation 2025 false).2.1 (.num 5)
      (fun _ h => Value.noConfusion h) (fun _ h => Value.noConfusion h),
   (C9_plan_validation 2025 false).2.2.2.1 [("note", .str "x")] (by decide),
   (C9_plan_validation 2025 false).2.2.2.2.2.2.2.2
     [.dict [("tool", .str "flight_search"),
       ("args", .dict [("query", .str "SFO to NYC")])]]
     none
     (some [.dict [("tool", .str "flight_search"),
       ("args", .dict [("query", .str "SFO to NYC")])]])
     (by rfl)⟩

end GreenAgent
